import Mathlib

/-!
Verification of the mindmirror memory service against its specification.

The development shallowly embeds the relevant code of `memory_server.py`
(memory engine: ingestion, deduplication, conflict graph, hybrid retrieval,
deletion, pruning), `proxy_sse.py` (gateway token injection) and
`memory_mcp_direct.py` (tool dispatcher formatting).  Database tables become
lists, SQL queries become list operations, and the external primitives
(the sentence-transformer embedding model, the pgvector cosine-distance
operator `<=>`, the numpy cosine similarity used for in-process dedup, the
MD5 digest, and ISO-timestamp parsing) are supplied as an explicit
environment, since the repository treats them as black boxes.
-/

namespace Mindmirror

/-- Closed tag set (`memory_server.py`, `VALID_TAGS`). -/
def VALID_TAGS : List String :=
  ["goal", "routine", "preference", "constraint",
   "habit", "project", "tool", "identity", "value"]

/-- Tags never pruned (`memory_server.py`, `CORE_TAGS`). -/
def CORE_TAGS : List String := ["identity", "value"]

/-- Per-record metadata JSON dict, as written by `store_memory`.  Keys that the
code may leave absent are modelled as `Option` fields (`none` = key absent).
`hash` is optional because the keyword-fallback path of `search_memories`
writes back a reduced metadata dict that has no `hash` key. -/
structure Metadata where
  tag : String
  timestamp : String
  hash : Option String
  last_accessed : String
  has_conflicts : Option Bool := none
  conflict_ids : Option (List String) := none
  archived : Option Bool := none
  archive_date : Option String := none
  archive_reason : Option String := none
  deriving Repr, DecidableEq

/-- A row of the `memories` table. -/
structure Record where
  id : String
  user_id : String
  text : String
  tag : String
  embedding : List ℚ
  metadata : Metadata
  created_at : String
  deriving Repr, DecidableEq

/-- Server state: the `memories` table, the process-wide `memory_hashes`
cache, and the set of user ids whose active token has `is_admin = true`
(the `auth_tokens` table, restricted to what the engine reads). -/
structure ServerState where
  memories : List Record
  memory_hashes : List String
  admin_users : List String
  deriving Repr, DecidableEq

/-- External primitives the code calls but does not implement:
`model.encode`, the pgvector cosine distance `embedding <=> q`, numpy
cosine similarity (`np.dot/(norm*norm)`), `hashlib.md5(...).hexdigest()`,
and `datetime.fromisoformat`. -/
structure Env where
  encode : String → List ℚ
  dist : List ℚ → List ℚ → ℚ
  npCosSim : List ℚ → List ℚ → ℚ
  md5Hex : String → String
  parseIso : String → Int

/-- `metadata.get('has_conflicts', False)`. -/
def hasConflictsOf (r : Record) : Bool := r.metadata.has_conflicts.getD false

/-- `json.loads(metadata.get('conflict_ids', '[]'))`. -/
def conflictIdsOf (r : Record) : List String := r.metadata.conflict_ids.getD []

/-- `SELECT ... FROM memories WHERE id = %s` (first matching row). -/
def findById (mems : List Record) (i : String) : Option Record :=
  mems.find? (fun r => r.id = i)

/-- `UPDATE memories SET ... WHERE id = %s`. -/
def updateById (mems : List Record) (i : String) (f : Record → Record) : List Record :=
  mems.map (fun r => if r.id = i then f r else r)

/-- `SELECT COUNT(*) FROM memories WHERE user_id = %s`. -/
def count_memories (st : ServerState) (uid : String) : Nat :=
  (st.memories.filter (fun r => r.user_id = uid)).length

/-- `hashlib.md5(f"\x7bmemory_text_normalized\x7d:\x7bmemory.tag\x7d".encode()).hexdigest()`
with `memory_text_normalized = memory.text.strip().lower()`.  Note the digest
input does not mention the user id. -/
def memoryHash (env : Env) (text tag : String) : String :=
  env.md5Hex (text.trim.toLower ++ ":" ++ tag)

/-- Stable insertion of `a` into `l`: `a` goes before the first element it
weakly precedes. -/
def sortedInsert {α : Type} (le : α → α → Bool) (a : α) : List α → List α
  | [] => [a]
  | b :: bs => if le a b then a :: b :: bs else b :: sortedInsert le a bs

/-- Stable insertion sort, standing for the `ORDER BY` of the SQL queries and
Python's stable `list.sort`. -/
def sortBy {α : Type} (le : α → α → Bool) : List α → List α
  | [] => []
  | a :: as => sortedInsert le a (sortBy le as)

lemma sortedInsert_perm {α : Type} (le : α → α → Bool) (a : α) (l : List α) :
    List.Perm (sortedInsert le a l) (a :: l) := by
  induction l with
  | nil => exact List.Perm.refl _
  | cons b bs ih =>
      unfold sortedInsert
      split
      · exact List.Perm.refl _
      · exact (List.Perm.cons b ih).trans (List.Perm.swap a b bs)

lemma sortBy_perm {α : Type} (le : α → α → Bool) (l : List α) :
    List.Perm (sortBy le l) l := by
  induction l with
  | nil => exact List.Perm.refl []
  | cons a as ih =>
      exact (sortedInsert_perm le a (sortBy le as)).trans (List.Perm.cons a ih)

/-- `ORDER BY embedding <=> %s::vector LIMIT k` scoped to an already filtered
row set. -/
def topKByDistance (env : Env) (q : List ℚ) (mems : List Record) (k : Nat) : List Record :=
  (sortBy (fun a b => decide (env.dist q a.embedding ≤ env.dist q b.embedding)) mems).take k

/-- Result dict of `POST /memories` (`store_memory`).  Each constructor lists
exactly the keys the Python dict carries; in particular `stored` has no
conflicts field. -/
inductive StoreOutcome where
  | invalidTag (valid : List String)
  | skipped (text tag : String)
  | limitReached (memories_used memory_limit : Nat)
  | semanticDuplicate (mem_id : String) (similarity : ℚ)
  | stored (id text tag timestamp : String)
  deriving Repr, DecidableEq

/-- Back-edge update `store_memory` applies to each conflict candidate:
set `has_conflicts = True` and add the new id to its `conflict_ids`
(idempotently). -/
def addBackEdge (memory_id : String) (r : Record) : Record :=
  match r.metadata.conflict_ids with
  | some l =>
      if memory_id ∈ l then
        { r with metadata := { r.metadata with has_conflicts := some true } }
      else { r with metadata :=
        { r.metadata with has_conflicts := some true, conflict_ids := some (l ++ [memory_id]) } }
  | none => { r with metadata :=
        { r.metadata with has_conflicts := some true, conflict_ids := some [memory_id] } }

/-- `POST /memories` (`store_memory`, memory_server.py lines 312-485).
`ts0`/`la0` are the optional client-supplied `timestamp`/`last_accessed`;
`now_ms`/`now_iso` stand for the wall clock readings. -/
def store_memory (env : Env) (st : ServerState) (user_id text tag : String)
    (ts0 la0 : Option String) (now_ms : Nat) (now_iso : String) :
    StoreOutcome × ServerState :=
  if tag ∉ VALID_TAGS then (.invalidTag VALID_TAGS, st)
  else
    let timestamp := ts0.getD now_iso
    let memory_hash := memoryHash env text tag
    if memory_hash ∈ st.memory_hashes then (.skipped text tag, st)
    else
      let st1 : ServerState := { st with memory_hashes := memory_hash :: st.memory_hashes }
      let is_admin := user_id ∈ st.admin_users
      let memory_count := count_memories st user_id
      if ¬ is_admin ∧ memory_count ≥ 25 then (.limitReached memory_count 25, st1)
      else
        let embedding := env.encode text
        let sameUserTag := st.memories.filter (fun r => r.user_id = user_id ∧ r.tag = tag)
        let similar := topKByDistance env embedding sameUserTag 3
        match similar.find? (fun r => (1 : ℚ) - env.dist embedding r.embedding > 95/100) with
        | some r => (.semanticDuplicate r.id ((1 : ℚ) - env.dist embedding r.embedding), st1)
        | none =>
          let memory_id := "mem_" ++ toString now_ms
          let candidates := topKByDistance env embedding sameUserTag 5
          let conflicts :=
            (candidates.filter (fun r => (1 : ℚ) - env.dist embedding r.embedding ≥ 65/100)).map
              (fun r => r.id)
          let last_accessed := la0.getD now_iso
          let metadata : Metadata :=
            { tag := tag, timestamp := timestamp, hash := some memory_hash,
              last_accessed := last_accessed,
              has_conflicts := if conflicts = [] then none else some true,
              conflict_ids := if conflicts = [] then none else some conflicts }
          let mems1 := conflicts.foldl (fun ms cid => updateById ms cid (addBackEdge memory_id))
            st.memories
          let newRec : Record :=
            { id := memory_id, user_id := user_id, text := text, tag := tag,
              embedding := embedding, metadata := metadata, created_at := now_iso }
          (.stored memory_id text tag timestamp,
           { st1 with memories := mems1 ++ [newRec] })

/-- Result of `DELETE /memories/<id>` (`delete_memory`). -/
inductive DeleteOutcome where
  | notFound
  | deleted (id text tag timestamp : String)
  deriving Repr, DecidableEq

/-- Neighbour repair `delete_memory` applies to each id in the deleted
record's `conflict_ids`: drop the deleted id from the neighbour's list and,
if the list empties, clear `has_conflicts` and delete the `conflict_ids`
key. -/
def removeEdge (memory_id : String) (r : Record) : Record :=
  match r.metadata.conflict_ids with
  | some l =>
      if memory_id ∈ l then
        if l.erase memory_id = [] then
          { r with metadata :=
            { r.metadata with has_conflicts := some false, conflict_ids := none } }
        else { r with metadata :=
            { r.metadata with conflict_ids := some (l.erase memory_id) } }
      else r
  | none => r

/-- `DELETE /memories/<id>` (`delete_memory`, memory_server.py lines
1311-1404).  Lookup is scoped by `id AND user_id`; a missing id and a record
owned by another user both take the 404 branch. -/
def delete_memory (env : Env) (st : ServerState) (user_id memory_id : String) :
    DeleteOutcome × ServerState :=
  match st.memories.find? (fun r => r.id = memory_id ∧ r.user_id = user_id) with
  | none => (.notFound, st)
  | some r =>
      let memory_hash :=
        match r.metadata.hash with
        | some h => h
        | none => memoryHash env r.text r.tag
      let hashes := st.memory_hashes.erase memory_hash
      let mems1 :=
        if hasConflictsOf r ∧ r.metadata.conflict_ids ≠ none then
          (conflictIdsOf r).foldl (fun ms cid => updateById ms cid (removeEdge memory_id))
            st.memories
        else st.memories
      (.deleted r.id r.text r.tag r.metadata.timestamp,
       { st with memories := mems1.filter (fun x => x.id ≠ memory_id),
                 memory_hashes := hashes })

/-- `MemoryResponse` (pydantic model): the projection of a record that search
and list endpoints return.  `similarity` defaults to `None`. -/
structure MemResp where
  id : String
  text : String
  tag : String
  timestamp : String
  last_accessed : String
  similarity : Option ℚ := none
  deriving Repr, DecidableEq

/-- `keyword_search` stop words. -/
def stop_words : List String :=
  ["the", "a", "an", "and", "or", "but", "in", "on", "at", "to", "for", "of", "with", "by"]

/-- `[word.strip().lower() for word in query.split() if word.strip().lower()
not in stop_words and len(word.strip()) > 2]`. -/
def extractKeywords (query : String) : List String :=
  (((query.splitOn " ").filter (fun w => w ≠ "")).filter
    (fun w => w.trim.toLower ∉ stop_words ∧ w.trim.length > 2)).map (fun w => w.trim.toLower)

/-- `text ILIKE '%kw%'` for an already lower-cased keyword. -/
def ilikeMatch (text kw : String) : Bool :=
  decide (kw.toList <:+: text.toLower.toList)

/-- Optional `AND tag = %s` filter. -/
def tagMatches (tag_filter : Option String) (r : Record) : Bool :=
  match tag_filter with
  | some t => r.tag = t
  | none => true

/-- `keyword_search` (memory_server.py lines 487-556): case-insensitive
substring fallback scoped to the user, excluding ids already found, ordered
by `created_at DESC`, with synthetic similarities `0.7 - 0.03*rank`. -/
def keyword_search (st : ServerState) (query user_id : String) (limit : Nat)
    (tag_filter : Option String) (exclude_ids : List String) : List MemResp :=
  let keywords := extractKeywords query
  if keywords = [] then []
  else
    let rows := st.memories.filter (fun r =>
      r.user_id = user_id ∧ (keywords.any (fun k => ilikeMatch r.text k)) ∧
      tagMatches tag_filter r ∧ r.id ∉ exclude_ids)
    let rows := (sortBy (fun a b => decide (b.created_at ≤ a.created_at)) rows).take limit
    rows.enum.map (fun p =>
      { id := p.2.id, text := p.2.text, tag := p.2.tag,
        timestamp := p.2.metadata.timestamp,
        last_accessed := p.2.metadata.last_accessed,
        similarity := some ((7 : ℚ)/10 - p.1 * (3/100)) })

/-- A row of the hybrid result list inside `search_memories`: either a row of
the semantic SQL query (a full record plus its computed similarity) or a
keyword-fallback row already converted to dict shape. -/
inductive Row where
  | sem (r : Record) (similarity : ℚ)
  | kw (m : MemResp)
  deriving Repr, DecidableEq

/-- `x.get('similarity', 0.0)` used by the composite sort. -/
def Row.similarity : Row → ℚ
  | .sem _ s => s
  | .kw m => m.similarity.getD 0

/-- `x.get('created_at', '')` used by the composite sort (keyword rows set
`created_at` to their timestamp). -/
def Row.created : Row → String
  | .sem r _ => r.created_at
  | .kw m => m.timestamp

/-- Descending lexicographic comparison on `(similarity, created_at)`
mirroring `results.sort(key=..., reverse=True)`. -/
def rowDescLe (a b : Row) : Bool :=
  decide (b.similarity < a.similarity) ||
    (decide (b.similarity = a.similarity) && decide (b.created ≤ a.created))

/-- Accumulator of the first response-building pass of `search_memories`:
the current `memories` table (receiving `last_accessed` updates), the
response list built so far, and the per-anchor conflict sets. -/
structure PassAcc where
  table : List Record
  resps : List MemResp
  sets : List (String × List MemResp)
  deriving Repr, DecidableEq

/-- The inner loop over a conflicted row's `conflict_ids`: fetch every
referenced record whose id is not already in the response list and append its
projection (with no similarity) to the conflict set. -/
def collectConflictMembers (table' : List Record) (resIds : List String)
    (cids : List String) (base : List MemResp) : List MemResp :=
  cids.foldl (fun mem cid =>
    if cid ∈ resIds then mem
    else
      match findById table' cid with
      | some c => mem ++
          [{ id := cid, text := c.text, tag := c.tag, timestamp := c.metadata.timestamp,
             last_accessed := c.metadata.last_accessed, similarity := none }]
      | none => mem) base

/-- One iteration of the first pass (memory_server.py lines 666-711): update
`last_accessed`, append the response projection, and when the row's metadata
has `has_conflicts`, open a conflict set and pull in referenced records not
already present in the response list (fetched by bare id). -/
def firstPassStep (now_iso : String) (acc : PassAcc) (row : Row) : PassAcc :=
  match row with
  | .sem r sim =>
      let table' := updateById acc.table r.id
        (fun rec => { rec with metadata := { rec.metadata with last_accessed := now_iso } })
      let resp : MemResp :=
        { id := r.id, text := r.text, tag := r.tag, timestamp := r.metadata.timestamp,
          last_accessed := now_iso, similarity := some sim }
      let resps' := acc.resps ++ [resp]
      if r.metadata.has_conflicts = some true then
        let members := collectConflictMembers table' (resps'.map (fun m => m.id))
          (conflictIdsOf r) [resp]
        { table := table', resps := resps', sets := acc.sets ++ [(r.id, members)] }
      else { table := table', resps := resps', sets := acc.sets }
  | .kw m =>
      let table' := updateById acc.table m.id
        (fun rec => { rec with metadata :=
          { tag := m.tag, timestamp := m.timestamp, hash := none,
            last_accessed := now_iso } })
      let resp : MemResp :=
        { id := m.id, text := m.text, tag := m.tag, timestamp := m.timestamp,
          last_accessed := now_iso, similarity := m.similarity }
      { table := table', resps := acc.resps ++ [resp], sets := acc.sets }

/-- Semantic deduplication within one conflict set (memory_server.py lines
713-756): keep one representative of every > 0.95 cluster (the more recent
one), then sort by timestamp descending. -/
def dedupeConflicts (env : Env) (conflicts : List MemResp) : List MemResp :=
  if conflicts.length ≤ 1 then conflicts
  else
    let uniq := conflicts.foldl (fun uniq c =>
      match uniq.find? (fun u =>
          env.npCosSim (env.encode c.text) (env.encode u.text) > 95/100) with
      | some u => if u.timestamp < c.timestamp then uniq.erase u ++ [c] else uniq
      | none => uniq ++ [c]) []
    sortBy (fun a b => decide (b.timestamp ≤ a.timestamp)) uniq

/-- The `UnionFind` class defined inside `search_memories`.  `parent` and
`rank` are the two dicts, as insertion-ordered association lists. -/
structure UnionFind where
  parent : List (String × String)
  rank : List (String × Nat)
  deriving Repr, DecidableEq

/-- Association-list lookup. -/
def lookupAssoc {α : Type} (l : List (String × α)) (k : String) : Option α :=
  (l.find? (fun p => p.1 = k)).map (fun p => p.2)

/-- Association-list assignment: Python dict `d[k] = v` (replace in place, or
append a new key). -/
def setAssoc {α : Type} (l : List (String × α)) (k : String) (v : α) : List (String × α) :=
  if (l.find? (fun p => p.1 = k)).isSome then
    l.map (fun p => if p.1 = k then (k, v) else p)
  else l ++ [(k, v)]

/-- Root chasing of `UnionFind.find` (without the path-compression write,
which does not change the returned root); fuel bounds the parent-chain
length. -/
def rootAux (parent : List (String × String)) : Nat → String → String
  | 0, x => x
  | n + 1, x =>
      match lookupAssoc parent x with
      | some px => if px = x then x else rootAux parent n px
      | none => x

/-- `UnionFind.find`: insert an absent element as its own root, then return
the root of its chain. -/
def UnionFind.find (uf : UnionFind) (x : String) : UnionFind × String :=
  let uf :=
    if (lookupAssoc uf.parent x).isSome then uf
    else { parent := uf.parent ++ [(x, x)], rank := uf.rank ++ [(x, 0)] }
  (uf, rootAux uf.parent uf.parent.length x)

/-- `self.rank[x]` (0 when absent). -/
def UnionFind.rankOf (uf : UnionFind) (x : String) : Nat :=
  (lookupAssoc uf.rank x).getD 0

/-- `UnionFind.union` with union by rank. -/
def UnionFind.union (uf : UnionFind) (x y : String) : UnionFind :=
  let fx := uf.find x
  let fy := fx.1.find y
  let uf := fy.1
  let px := fx.2
  let py := fy.2
  if px = py then uf
  else
    let pq := if uf.rankOf px < uf.rankOf py then (py, px) else (px, py)
    { parent := setAssoc uf.parent pq.2 pq.1,
      rank := if uf.rankOf pq.1 = uf.rankOf pq.2 then
                setAssoc uf.rank pq.1 (uf.rankOf pq.1 + 1)
              else uf.rank }

/-- `UnionFind.get_groups`: group every tracked id under its root, in
insertion order. -/
def UnionFind.get_groups (uf : UnionFind) : List (List String) :=
  let grouped := (uf.parent.map (fun p => p.1)).foldl (fun groups x =>
    let root := rootAux uf.parent uf.parent.length x
    match lookupAssoc groups root with
    | some g => setAssoc groups root (g ++ [x])
    | none => groups ++ [(root, [x])]) []
  grouped.map (fun p => p.2)

/-- The nested loop `for i ...: for j in range(i+1, ...): uf.union(l[i], l[j])`. -/
def pairUnions : UnionFind → List String → UnionFind
  | uf, [] => uf
  | uf, x :: xs => pairUnions (xs.foldl (fun u y => u.union x y) uf) xs

/-- Member lookup when building a conflict group: first the primary result
list, then the conflict sets, first match wins. -/
def lookupMember (resps : List MemResp) (sets : List (String × List MemResp))
    (i : String) : Option MemResp :=
  match resps.find? (fun m => m.id = i) with
  | some m => some m
  | none => sets.foldl (fun acc p => acc <|> p.2.find? (fun c => c.id = i)) none

/-- Response body of `POST /memories/search`. -/
structure SearchResponse where
  query : String
  results : List MemResp
  count : Nat
  conflict_groups : Option (List (List MemResp)) := none
  conflict_sets : Option (List (String × List MemResp)) := none
  deriving Repr, DecidableEq

/-- Outcome of `POST /memories/search` (400 on a bad tag filter, 200
otherwise). -/
inductive SearchOutcome where
  | invalidTagFilter (valid : List String)
  | ok (resp : SearchResponse)
  deriving Repr, DecidableEq

/-- The manual re-check executed when the first pass found no conflict sets
(memory_server.py lines 922-970): re-read each returned memory's metadata
from the table and rebuild sets, fetching every referenced id. -/
def manualConflictSets (table : List Record) (resps : List MemResp) :
    List (String × List MemResp) :=
  resps.foldl (fun ms m =>
    match findById table m.id with
    | some rec =>
        if hasConflictsOf rec ∧ rec.metadata.conflict_ids ≠ none then
          let members := (conflictIdsOf rec).foldl (fun mem cid =>
            match findById table cid with
            | some c => mem ++
                [{ id := cid, text := c.text, tag := c.tag,
                   timestamp := c.metadata.timestamp,
                   last_accessed := c.metadata.last_accessed, similarity := none }]
            | none => mem) [m]
          ms ++ [(m.id, members)]
        else ms
    | none => ms) []

/-- The hybrid row list of `search_memories`: the semantic top-`limit` rows
with `similarity = 1 - distance`, topped up by keyword-fallback rows when
short, composite-sorted by `(similarity, created_at)` descending. -/
def hybridRows (env : Env) (st : ServerState) (user_id query : String)
    (limit : Nat) (tag_filter : Option String) : List Row :=
  let q := env.encode query
  let inScope := st.memories.filter (fun r => r.user_id = user_id ∧ tagMatches tag_filter r)
  let semRows := topKByDistance env q inScope limit
  let rows := semRows.map (fun r => Row.sem r ((1 : ℚ) - env.dist q r.embedding))
  let rows :=
    if semRows.length < limit then
      rows ++ (keyword_search st query user_id (limit - semRows.length) tag_filter
        (semRows.map (fun r => r.id))).map Row.kw
    else rows
  sortBy rowDescLe rows

/-- Union-find grouping over the (deduplicated) conflict sets: union every
pair of ids co-occurring in a set, keep components of size at least 2, and
materialise each as memory objects sorted by timestamp descending. -/
def buildConflictGroups (resps : List MemResp)
    (setsD : List (String × List MemResp)) : List (List MemResp) :=
  let uf := setsD.foldl (fun uf p =>
    pairUnions uf ((p.1 :: p.2.map (fun m => m.id)).dedup)) ⟨[], []⟩
  let meaningful := uf.get_groups.filter (fun g => g.length ≥ 2)
  meaningful.map (fun g =>
    (sortBy (fun a b => decide (b.timestamp ≤ a.timestamp))
      (g.filterMap (lookupMember resps setsD))))

/-- The 200 path of `search_memories`: run the hybrid query, build the
response list (updating `last_accessed`), assemble and deduplicate conflict
sets, and attach `conflict_groups` (or `conflict_sets`). -/
def searchBody (env : Env) (st : ServerState) (user_id query : String)
    (limit : Nat) (tag_filter : Option String) (now_iso : String) :
    SearchOutcome × ServerState :=
  let rows := hybridRows env st user_id query limit tag_filter
  let acc := rows.foldl (firstPassStep now_iso) ⟨st.memories, [], []⟩
  let setsD := acc.sets.map (fun p => (p.1, dedupeConflicts env p.2))
  let base : SearchResponse :=
    { query := query, results := acc.resps, count := acc.resps.length }
  let resp : SearchResponse :=
    if setsD.isEmpty = false then
      let conflict_groups := buildConflictGroups acc.resps setsD
      if conflict_groups ≠ [] then { base with conflict_groups := some conflict_groups }
      else { base with conflict_sets := some setsD }
    else
      let manual := manualConflictSets acc.table acc.resps
      { base with conflict_sets := some manual }
  (.ok resp, { st with memories := acc.table })

/-- `POST /memories/search` (`search_memories`, memory_server.py lines
558-981): semantic nearest-neighbour query, keyword fallback when short,
composite sort, response building with `last_accessed` updates and conflict
sets, per-set semantic dedup, and union-find conflict grouping. -/
def search_memories (env : Env) (st : ServerState) (user_id query : String)
    (limit : Nat) (tag_filter : Option String) (now_iso : String) :
    SearchOutcome × ServerState :=
  match tag_filter with
  | some t =>
      if t ∉ VALID_TAGS then (.invalidTagFilter VALID_TAGS, st)
      else searchBody env st user_id query limit tag_filter now_iso
  | none => searchBody env st user_id query limit tag_filter now_iso

/-- `GET /memories` (`list_memories`): newest first, optionally filtered by
tag; validation mirrored by the 400 branch. -/
def list_memories (st : ServerState) (user_id : String) (tag : Option String)
    (limit : Nat) : Option (List MemResp) :=
  match tag with
  | some t => if t ∉ VALID_TAGS then none else some (listBody st user_id tag limit)
  | none => some (listBody st user_id tag limit)
where
  listBody (st : ServerState) (user_id : String) (tag : Option String)
      (limit : Nat) : List MemResp :=
    let rows := st.memories.filter (fun r => r.user_id = user_id ∧ tagMatches tag r)
    ((sortBy (fun a b => decide (b.created_at ≤ a.created_at)) rows).take limit).map
      (fun r =>
        { id := r.id, text := r.text, tag := r.tag, timestamp := r.metadata.timestamp,
          last_accessed := r.metadata.last_accessed })

/-- A Python exception escaping an endpoint. -/
inductive PyError where
  | attributeError (msg : String)
  deriving Repr, DecidableEq

/-- `datetime.now(datetime.timezone.utc)` as written at memory_server.py line
1412 (and 1005, 1474): `datetime` is the class imported by
`from datetime import datetime`, which has no attribute `timezone`, so the
expression raises before producing an instant. -/
def datetimeNowBroken : Except PyError Int :=
  .error (.attributeError "type object datetime.datetime has no attribute timezone")

/-- Classification summary returned by `prune_memories`. -/
structure PruneResponse where
  total_memories : Nat
  pruned_ids : List String
  kept_ids : List String
  deriving Repr, DecidableEq

/-- The classification pass of `prune_memories` (memory_server.py lines
1425-1495) as it would run from a given instant `now` (milliseconds):
core-tag records are kept; a record is marked `archived = true`,
`archive_reason = age_and_access` exactly when it is older than 90 days and
not accessed within 30 days.  The inner `archive_date` also calls the broken
`datetime.now`; `now_iso` stands in for the instant it was meant to format. -/
def pruneClassify (env : Env) (st : ServerState) (user_id : String) (now : Int)
    (now_iso : String) : PruneResponse × ServerState :=
  let archive_cutoff : Int := now - 90 * 86400000
  let access_cutoff : Int := now - 30 * 86400000
  let rows := st.memories.filter (fun r => r.user_id = user_id)
  let shouldPrune : Record → Bool := fun r =>
    decide (r.tag ∉ CORE_TAGS) &&
    decide (env.parseIso r.metadata.timestamp < archive_cutoff) &&
    decide (env.parseIso r.metadata.last_accessed < access_cutoff)
  let to_prune := rows.filter (fun r => shouldPrune r)
  let kept := rows.filter (fun r => ¬ shouldPrune r = true)
  let markArchived : Record → Record := fun r =>
    { r with metadata :=
        { r.metadata with archived := some true, archive_date := some now_iso,
                          archive_reason := some "age_and_access" } }
  let table := st.memories.map (fun r =>
    if r.user_id = user_id ∧ shouldPrune r = true then markArchived r else r)
  ({ total_memories := rows.length,
     pruned_ids := to_prune.map (fun r => r.id),
     kept_ids := kept.map (fun r => r.id) },
   { st with memories := table })

/-- `GET /memories/prune` (`prune_memories`, memory_server.py lines
1406-1495): the first statement computes `now` via the broken
`datetime.now(datetime.timezone.utc)`, so the endpoint raises before any
classification happens. -/
def prune_memories (env : Env) (st : ServerState) (user_id : String)
    (now_iso : String) : Except PyError (PruneResponse × ServerState) := do
  let now ← datetimeNowBroken
  pure (pruneClassify env st user_id now now_iso)

/-- JSON values, with objects as insertion-ordered key/value lists (Python
dicts). -/
inductive Json where
  | null
  | bool (b : Bool)
  | num (n : Int)
  | str (s : String)
  | arr (xs : List Json)
  | obj (kvs : List (String × Json))
  deriving Repr

/-- `d.get(k)` on an object, `None`-ish otherwise. -/
def Json.getKey : Json → String → Option Json
  | .obj kvs, k => lookupAssoc kvs k
  | _, _ => none

/-- Escaping of `json.dumps` for the characters this model serialises. -/
def escapeJsonChar (c : Char) : String :=
  if c = '\\' then "\\\\"
  else if c = '"' then "\\\""
  else if c = '\n' then "\\n"
  else if c = '\t' then "\\t"
  else if c = '\r' then "\\r"
  else String.singleton c

/-- `json.dumps` with its default separators. -/
def Json.dumps : Json → String
  | .null => "null"
  | .bool true => "true"
  | .bool false => "false"
  | .num n => toString n
  | .str s => "\"" ++ String.join (s.toList.map escapeJsonChar) ++ "\""
  | .arr xs => "[" ++ ", ".intercalate (xs.attach.map (fun x => Json.dumps x.1)) ++ "]"
  | .obj kvs => "\x7b" ++ ", ".intercalate (kvs.attach.map (fun p =>
      "\"" ++ String.join (p.1.1.toList.map escapeJsonChar) ++ "\": " ++ Json.dumps p.1.2))
      ++ "\x7d"
decreasing_by
  · have := List.sizeOf_lt_of_mem x.2
    simp only [Json.arr.sizeOf_spec]
    omega
  · have h1 := List.sizeOf_lt_of_mem p.2
    have h2 : sizeOf p.1.2 < sizeOf p.1 := by
      obtain ⟨⟨a, b⟩, hp⟩ := p
      simp
    simp only [Json.obj.sizeOf_spec]
    omega

/-- Result of the token-injection rewrite at proxy_sse.py lines 326-343:
either a body to forward (with a flag recording whether it was rewritten) or
an uncaught `TypeError` (the `except` clause catches only
`JSONDecodeError`/`KeyError`). -/
inductive InjectResult where
  | forwardAsIs
  | rewritten (body : Json)
  | raised
  deriving Repr

/-- `'k' in d` for a parsed JSON value (`in` on a list tests element
membership, on a string substring membership, and raises on numbers). -/
def pyContains (j : Json) (k : String) : Except Unit Bool :=
  match j with
  | .obj kvs => .ok ((kvs.find? (fun p => p.1 = k)).isSome)
  | .arr xs => .ok (xs.any (fun x => match x with | .str s => s = k | _ => false))
  | .str s => .ok (decide (k.toList <:+: s.toList))
  | _ => .error ()

/-- The rewrite `messages_passthrough` applies to a parsed POST body: when
`method == "tools/call"`, `'params' in json_data` and
`'arguments' in json_data['params']`, execute
`json_data['params']['arguments']['user_token'] = token`. -/
def injectUserToken (token : String) (body : Json) : InjectResult :=
  match body with
  | .obj kvs =>
      match lookupAssoc kvs "method" with
      | some (.str m) =>
          if m = "tools/call" then
            match lookupAssoc kvs "params" with
            | some params =>
                match pyContains params "arguments" with
                | .error _ => .raised
                | .ok false => .forwardAsIs
                | .ok true =>
                    match params with
                    | .obj pkvs =>
                        match lookupAssoc pkvs "arguments" with
                        | some (.obj akvs) =>
                            .rewritten (.obj (setAssoc kvs "params"
                              (.obj (setAssoc pkvs "arguments"
                                (.obj (setAssoc akvs "user_token" (.str token)))))))
                        | _ => .raised
                    | _ => .raised
            | none => .forwardAsIs
          else .forwardAsIs
      | _ => .forwardAsIs
  | _ => .raised

/-- What `messages_passthrough` forwards downstream. -/
structure ForwardedRequest where
  headers : List (String × String)
  body : String
  deriving Repr, DecidableEq

/-- `POST /messages/<path>` (`messages_passthrough`, proxy_sse.py lines
280-353), after authentication has resolved `token`/`user_id`: copy the
client headers, stamp the identity headers, drop `host`, and for a parsed
`tools/call` body inject `user_token` and recompute `content-length`.
`parsed` is `json.loads(body)` (`none` = `JSONDecodeError`, which is caught
and leaves the body untouched); the result is `none` when the uncaught
`TypeError` of the injection escapes as a 500. -/
def messages_passthrough (token user_id : String) (reqMethod : String)
    (reqHeaders : List (String × String)) (rawBody : String)
    (parsed : Option Json) : Option ForwardedRequest :=
  let headers := setAssoc (setAssoc reqHeaders "X-User-Token" token) "X-User-Id" user_id
  let headers := headers.filter (fun p => p.1 ≠ "host")
  if reqMethod = "POST" ∧ rawBody ≠ "" then
    match parsed with
    | none => some { headers := headers, body := rawBody }
    | some j =>
        match injectUserToken token j with
        | .raised => none
        | .forwardAsIs => some { headers := headers, body := rawBody }
        | .rewritten j' =>
            let newBody := j'.dumps
            some { headers := setAssoc headers "content-length" (toString newBody.utf8ByteSize),
                   body := newBody }
  else some { headers := headers, body := rawBody }

/-- Formatting of the `remember` tool result (memory_mcp_direct.py lines
250-281) from the memory server's response dict.  The success branch reads
`result.get('conflicts_detected')` and `result.get('conflicts', [])`, keys
`store_memory` never returns, so the conflict block below the success
message is emitted only when `conflicts_detected` is present and truthy. -/
def rememberOutput (text category : String) (out : StoreOutcome) : String :=
  match out with
  | .invalidTag _ =>
      "I don't recognize the category '" ++ category ++ "'. Please use one of: " ++
        ", ".intercalate VALID_TAGS
  | .limitReached used lim =>
      "❌ Memory limit reached. Upgrade to premium to store more.\n\n" ++
      "Sign up for premium at: https://usemindmirror.com/premium\n\n" ++
      "You've used " ++ toString used ++ "/" ++ toString lim ++ " memories.\n\n" ++
      "This would have been: " ++ text
  | .skipped _ _ =>
      "I'll remember that!\n\n" ++ "Information: " ++ text ++ "\n" ++
      "Category: " ++ category ++ "\n" ++ "Memory ID: unknown\n"
  | .semanticDuplicate _ _ =>
      "I'll remember that!\n\n" ++ "Information: " ++ text ++ "\n" ++
      "Category: " ++ category ++ "\n" ++ "Memory ID: unknown\n"
  | .stored i _ _ _ =>
      "I'll remember that!\n\n" ++ "Information: " ++ text ++ "\n" ++
      "Category: " ++ category ++ "\n" ++ "Memory ID: " ++ i ++ "\n"

/-- One server-visible mutation of the memory engine state.  `store`
carries the freshness of the minted `mem_<ms>` id (uniqueness of the `id`
primary key, which the reference scheme provides via the millisecond
clock). -/
inductive Step (env : Env) : ServerState → ServerState → Prop where
  | store (st : ServerState) (user_id text tag : String) (ts0 la0 : Option String)
      (now_ms : Nat) (now_iso : String)
      (hfresh : ∀ r ∈ st.memories, r.id ≠ "mem_" ++ toString now_ms) :
      Step env st (store_memory env st user_id text tag ts0 la0 now_ms now_iso).2
  | del (st : ServerState) (user_id memory_id : String) :
      Step env st (delete_memory env st user_id memory_id).2
  | search (st : ServerState) (user_id query : String) (limit : Nat)
      (tag_filter : Option String) (now_iso : String) :
      Step env st (search_memories env st user_id query limit tag_filter now_iso).2

/-- States reachable from an empty store (any fixed population of admin
users; `auth_tokens` rows are not created by the engine operations). -/
inductive Reachable (env : Env) : ServerState → Prop where
  | init (admins : List String) : Reachable env ⟨[], [], admins⟩
  | step {st st' : ServerState} : Reachable env st → Step env st st' → Reachable env st'

/-- The conflict-graph and table invariants maintained by the engine, stated
on the `memories` table: unique primary keys, no dangling conflict
references, no self edges, edge symmetry, edges within one user, coherence
of the `has_conflicts` flag, and duplicate-free edge lists. -/
structure InvM (ms : List Record) : Prop where
  nodupIds : (ms.map (fun r => r.id)).Nodup
  noDangling : ∀ r ∈ ms, ∀ cid ∈ conflictIdsOf r, ∃ r', r' ∈ ms ∧ r'.id = cid
  noSelf : ∀ r ∈ ms, r.id ∉ conflictIdsOf r
  symm : ∀ r ∈ ms, ∀ r' ∈ ms, r'.id ∈ conflictIdsOf r → r.id ∈ conflictIdsOf r'
  sameUser : ∀ r ∈ ms, ∀ r' ∈ ms, r'.id ∈ conflictIdsOf r → r'.user_id = r.user_id
  coherent : ∀ r ∈ ms, (hasConflictsOf r = true ↔ conflictIdsOf r ≠ [])
  edgeNodup : ∀ r ∈ ms, (conflictIdsOf r).Nodup

lemma id_inj {ms : List Record} (hnd : (ms.map (fun r => r.id)).Nodup)
    {a b : Record} (ha : a ∈ ms) (hb : b ∈ ms) (hab : a.id = b.id) : a = b := by
  induction ms with
  | nil => cases ha
  | cons x xs ih =>
      rw [List.map_cons, List.nodup_cons] at hnd
      rcases List.mem_cons.mp ha with rfl | ha' <;>
        rcases List.mem_cons.mp hb with rfl | hb'
      · rfl
      · exact absurd (hab ▸ List.mem_map_of_mem (fun r => r.id) hb') hnd.1
      · exact absurd (hab ▸ List.mem_map_of_mem (fun r => r.id) ha') hnd.1
      · exact ih hnd.2 ha' hb'

lemma mem_updateById {ms : List Record} {i : String} {f : Record → Record} {x : Record}
    (hx : x ∈ updateById ms i f) : ∃ r, r ∈ ms ∧ x = if r.id = i then f r else r := by
  rw [updateById, List.mem_map] at hx
  obtain ⟨r, hr, hrx⟩ := hx
  exact ⟨r, hr, hrx.symm⟩

lemma foldl_updateById_forall {P : Record → Prop} {f : Record → Record}
    (hf : ∀ r, P r → P (f r)) (C : List String) (ms : List Record)
    (h : ∀ r ∈ ms, P r) :
    ∀ x ∈ C.foldl (fun acc cid => updateById acc cid f) ms, P x := by
  induction C generalizing ms with
  | nil => simpa using h
  | cons c C ih =>
      intro x hx
      rw [List.foldl_cons] at hx
      refine ih (updateById ms c f) ?_ x hx
      intro r hr
      obtain ⟨r0, hr0, rfl⟩ := mem_updateById hr
      split
      · exact hf r0 (h r0 hr0)
      · exact h r0 hr0

lemma foldl_updateById_eq {f : Record → Record} (hid : ∀ r, (f r).id = r.id)
    (C : List String) (hC : C.Nodup) (ms : List Record) :
    C.foldl (fun acc cid => updateById acc cid f) ms =
      ms.map (fun r => if r.id ∈ C then f r else r) := by
  induction C generalizing ms with
  | nil => simp
  | cons c C ih =>
      have hc : c ∉ C := (List.nodup_cons.mp hC).1
      rw [List.foldl_cons, ih (List.nodup_cons.mp hC).2, updateById, List.map_map]
      have hfun : ((fun r => if r.id ∈ C then f r else r) ∘
          fun r => if r.id = c then f r else r) =
          fun r => if r.id ∈ c :: C then f r else r := by
        funext r
        by_cases h1 : r.id = c
        · simp only [Function.comp, h1, if_pos rfl, hid, if_neg hc, List.mem_cons, true_or,
            if_pos]
        · by_cases h2 : r.id ∈ C <;>
            simp [Function.comp, h1, h2]
      rw [hfun]

lemma addBackEdge_id (m : String) (r : Record) : (addBackEdge m r).id = r.id := by
  unfold addBackEdge
  split
  · split <;> rfl
  · rfl

lemma addBackEdge_user_id (m : String) (r : Record) :
    (addBackEdge m r).user_id = r.user_id := by
  unfold addBackEdge
  split
  · split <;> rfl
  · rfl

lemma addBackEdge_hash (m : String) (r : Record) :
    (addBackEdge m r).metadata.hash = r.metadata.hash := by
  unfold addBackEdge
  split
  · split <;> rfl
  · rfl

lemma addBackEdge_has (m : String) (r : Record) :
    hasConflictsOf (addBackEdge m r) = true := by
  unfold hasConflictsOf addBackEdge
  split
  · split <;> rfl
  · rfl

lemma addBackEdge_cids (m : String) (r : Record) (hm : m ∉ conflictIdsOf r) :
    conflictIdsOf (addBackEdge m r) = conflictIdsOf r ++ [m] := by
  unfold addBackEdge
  split
  · rename_i l heq
    have hml : m ∉ l := by simpa [conflictIdsOf, heq] using hm
    rw [if_neg hml]
    simp [conflictIdsOf, heq]
  · rename_i heq
    simp [conflictIdsOf, heq]

lemma removeEdge_id (m : String) (r : Record) : (removeEdge m r).id = r.id := by
  unfold removeEdge
  split
  · split
    · split <;> rfl
    · rfl
  · rfl

lemma removeEdge_user_id (m : String) (r : Record) :
    (removeEdge m r).user_id = r.user_id := by
  unfold removeEdge
  split
  · split
    · split <;> rfl
    · rfl
  · rfl

lemma removeEdge_hash (m : String) (r : Record) :
    (removeEdge m r).metadata.hash = r.metadata.hash := by
  unfold removeEdge
  split
  · split
    · split <;> rfl
    · rfl
  · rfl

lemma removeEdge_cids_subset (m : String) (r : Record) :
    conflictIdsOf (removeEdge m r) ⊆ conflictIdsOf r := by
  unfold removeEdge
  split
  · rename_i l heq
    split
    · split
      · simp [conflictIdsOf]
      · simp only [conflictIdsOf, heq, Option.getD_some]
        exact fun x hx => List.mem_of_mem_erase hx
    · exact fun x hx => hx
  · exact fun x hx => hx

lemma removeEdge_not_mem (m : String) (r : Record)
    (hnd : (conflictIdsOf r).Nodup) : m ∉ conflictIdsOf (removeEdge m r) := by
  unfold removeEdge
  split
  · rename_i l heq
    have hl : (conflictIdsOf r) = l := by simp [conflictIdsOf, heq]
    split
    · split
      · simp [conflictIdsOf]
      · simp only [conflictIdsOf, Option.getD_some]
        rw [hl] at hnd
        exact hnd.not_mem_erase
    · rename_i hm
      simpa [hl] using hm
  · rename_i heq
    simp [conflictIdsOf, heq]

lemma removeEdge_mem_of (m cid : String) (r : Record) (hcid : cid ∈ conflictIdsOf r)
    (hne : cid ≠ m) : cid ∈ conflictIdsOf (removeEdge m r) := by
  unfold removeEdge
  split
  · rename_i l heq
    have hl : (conflictIdsOf r) = l := by simp [conflictIdsOf, heq]
    rw [hl] at hcid
    have hmem : cid ∈ l.erase m := (List.mem_erase_of_ne hne).mpr hcid
    split
    · split
      · rename_i hnil
        rw [hnil] at hmem
        cases hmem
      · simpa [conflictIdsOf] using hmem
    · simpa [conflictIdsOf, heq] using hcid
  · simpa [conflictIdsOf] using hcid

lemma removeEdge_coherent (m : String) (r : Record)
    (hco : hasConflictsOf r = true ↔ conflictIdsOf r ≠ []) :
    hasConflictsOf (removeEdge m r) = true ↔ conflictIdsOf (removeEdge m r) ≠ [] := by
  unfold removeEdge
  split
  · rename_i l heq
    have hl : (conflictIdsOf r) = l := by simp [conflictIdsOf, heq]
    split
    · rename_i hm
      split
      · simp [hasConflictsOf, conflictIdsOf]
      · rename_i hnil
        have hlne : l ≠ [] := by
          intro h0
          rw [h0] at hm
          cases hm
        have : hasConflictsOf r = true := hco.mpr (by rw [hl]; exact hlne)
        simpa [hasConflictsOf, conflictIdsOf, hnil] using this
    · exact hco
  · exact hco

lemma removeEdge_edgeNodup (m : String) (r : Record)
    (hnd : (conflictIdsOf r).Nodup) : (conflictIdsOf (removeEdge m r)).Nodup := by
  unfold removeEdge
  split
  · rename_i l heq
    have hl : (conflictIdsOf r) = l := by simp [conflictIdsOf, heq]
    rw [hl] at hnd
    split
    · split
      · simp [conflictIdsOf]
      · simp only [conflictIdsOf, Option.getD_some]
        exact hnd.erase m
    · simpa [hl] using hnd
  · simpa using hnd


/-- Record transformations that leave everything except timestamps intact
(the `last_accessed` touch of search, and the identity). -/
def PreservesCore (g : Record → Record) : Prop :=
  ∀ r, (g r).id = r.id ∧ (g r).user_id = r.user_id ∧ (g r).text = r.text ∧
    (g r).tag = r.tag ∧ (g r).embedding = r.embedding ∧
    (g r).metadata.hash = r.metadata.hash ∧
    (g r).metadata.conflict_ids = r.metadata.conflict_ids ∧
    (g r).metadata.has_conflicts = r.metadata.has_conflicts

lemma preservesCore_id : PreservesCore (fun r => r) := by
  intro r
  exact ⟨rfl, rfl, rfl, rfl, rfl, rfl, rfl, rfl⟩

lemma preservesCore_comp {g h : Record → Record} (hg : PreservesCore g)
    (hh : PreservesCore h) : PreservesCore (h ∘ g) := by
  intro r
  obtain ⟨a1, a2, a3, a4, a5, a6, a7, a8⟩ := hg r
  obtain ⟨b1, b2, b3, b4, b5, b6, b7, b8⟩ := hh (g r)
  exact ⟨b1.trans a1, b2.trans a2, b3.trans a3, b4.trans a4, b5.trans a5,
    b6.trans a6, b7.trans a7, b8.trans a8⟩

lemma preservesCore_touch (now_iso : String) :
    PreservesCore (fun rec => { rec with metadata :=
      { rec.metadata with last_accessed := now_iso } }) := by
  intro r
  exact ⟨rfl, rfl, rfl, rfl, rfl, rfl, rfl, rfl⟩

lemma preservesCore_updateById {g : Record → Record} (hg : PreservesCore g)
    (i : String) : PreservesCore (fun r => if r.id = i then g r else r) := by
  intro r
  by_cases h : r.id = i
  · simpa [h] using hg r
  · simp [h]

lemma cids_of_core {g : Record → Record} (hg : PreservesCore g) (r : Record) :
    conflictIdsOf (g r) = conflictIdsOf r := by
  unfold conflictIdsOf
  rw [(hg r).2.2.2.2.2.2.1]

lemma has_of_core {g : Record → Record} (hg : PreservesCore g) (r : Record) :
    hasConflictsOf (g r) = hasConflictsOf r := by
  unfold hasConflictsOf
  rw [(hg r).2.2.2.2.2.2.2]

lemma invm_map_core {g : Record → Record} (hg : PreservesCore g)
    {ms : List Record} (hInv : InvM ms) : InvM (ms.map g) := by
  have hid : ∀ r : Record, (g r).id = r.id := fun r => (hg r).1
  have hids : ((ms.map g).map (fun r => r.id)) = ms.map (fun r => r.id) := by
    rw [List.map_map]
    exact List.map_congr_left (fun r _ => hid r)
  constructor
  · rw [hids]
    exact hInv.nodupIds
  · intro x hx cid hcid
    obtain ⟨r, hr, rfl⟩ := List.mem_map.mp hx
    rw [cids_of_core hg] at hcid
    obtain ⟨r', hr', hrid⟩ := hInv.noDangling r hr cid hcid
    exact ⟨g r', List.mem_map_of_mem g hr', (hid r').trans hrid⟩
  · intro x hx
    obtain ⟨r, hr, rfl⟩ := List.mem_map.mp hx
    rw [cids_of_core hg, hid]
    exact hInv.noSelf r hr
  · intro x hx y hy hmem
    obtain ⟨r, hr, rfl⟩ := List.mem_map.mp hx
    obtain ⟨r', hr', rfl⟩ := List.mem_map.mp hy
    rw [cids_of_core hg, hid] at hmem
    rw [cids_of_core hg, hid]
    exact hInv.symm r hr r' hr' hmem
  · intro x hx y hy hmem
    obtain ⟨r, hr, rfl⟩ := List.mem_map.mp hx
    obtain ⟨r', hr', rfl⟩ := List.mem_map.mp hy
    rw [cids_of_core hg, hid] at hmem
    rw [(hg r').2.1, (hg r).2.1]
    exact hInv.sameUser r hr r' hr' hmem
  · intro x hx
    obtain ⟨r, hr, rfl⟩ := List.mem_map.mp hx
    rw [cids_of_core hg, has_of_core hg]
    exact hInv.coherent r hr
  · intro x hx
    obtain ⟨r, hr, rfl⟩ := List.mem_map.mp hx
    rw [cids_of_core hg]
    exact hInv.edgeNodup r hr

lemma topK_subset {env : Env} {q : List ℚ} {k : Nat} {ms : List Record} :
    ∀ x ∈ topKByDistance env q ms k, x ∈ ms := by
  intro x hx
  unfold topKByDistance at hx
  have hx' : x ∈ sortBy (fun a b => decide (env.dist q a.embedding ≤ env.dist q b.embedding)) ms :=
    (List.take_sublist _ _).subset hx
  exact (sortBy_perm _ ms).subset hx'

lemma topK_ids_nodup {env : Env} {q : List ℚ} {k : Nat} {ms : List Record}
    (hnd : (ms.map (fun r => r.id)).Nodup) :
    ((topKByDistance env q ms k).map (fun r => r.id)).Nodup := by
  unfold topKByDistance
  have h1 : ((sortBy (fun a b => decide (env.dist q a.embedding ≤ env.dist q b.embedding)) ms).map
      (fun r => r.id)).Nodup :=
    (((sortBy_perm _ ms).map (fun r => r.id)).nodup_iff).mpr hnd
  exact h1.sublist ((List.take_sublist _ _).map _)

lemma filter_ids_nodup {p : Record → Bool} {ms : List Record}
    (hnd : (ms.map (fun r => r.id)).Nodup) :
    ((ms.filter p).map (fun r => r.id)).Nodup :=
  hnd.sublist ((List.filter_sublist ms).map _)

lemma findById_map {g : Record → Record} (hg : PreservesCore g)
    (ms : List Record) (i : String) :
    findById (ms.map g) i = (findById ms i).map g := by
  unfold findById
  induction ms with
  | nil => rfl
  | cons x xs ih =>
      rw [List.map_cons, List.find?_cons, List.find?_cons]
      by_cases h : x.id = i
      · simp [(hg x).1, h]
      · simp only [(hg x).1, h, decide_eq_true_eq, if_neg, decide_False]
        simpa [h] using ih

lemma findById_mem {ms : List Record} {i : String} {c : Record}
    (h : findById ms i = some c) : c ∈ ms ∧ c.id = i := by
  unfold findById at h
  refine ⟨List.mem_of_find?_eq_some h, ?_⟩
  have := List.find?_some h
  simpa using this

lemma findById_eq_of_mem {ms : List Record} (hnd : (ms.map (fun r => r.id)).Nodup)
    {r : Record} (hr : r ∈ ms) : findById ms r.id = some r := by
  unfold findById
  induction ms with
  | nil => cases hr
  | cons x xs ih =>
      rw [List.map_cons, List.nodup_cons] at hnd
      rcases List.mem_cons.mp hr with rfl | hr'
      · simp
      · rw [List.find?_cons]
        have hxr : x.id ≠ r.id := by
          intro h
          exact hnd.1 (h ▸ List.mem_map_of_mem (fun r => r.id) hr')
        simpa [hxr] using ih hnd.2 hr'

lemma invm_after_store (ms : List Record) (hInv : InvM ms)
    (user_id text tag mid : String) (emb : List ℚ) (hsh : Option String)
    (ts la created : String) (cands : List Record)
    (hc1 : ∀ c ∈ cands, c ∈ ms ∧ c.user_id = user_id)
    (hc2 : (cands.map (fun r => r.id)).Nodup)
    (hfresh : ∀ r ∈ ms, r.id ≠ mid) :
    InvM (((cands.map (fun r => r.id)).foldl
        (fun acc cid => updateById acc cid (addBackEdge mid)) ms) ++
      [{ id := mid, user_id := user_id, text := text, tag := tag, embedding := emb,
         metadata :=
           { tag := tag, timestamp := ts, hash := hsh, last_accessed := la,
             has_conflicts := (if cands.map (fun r => r.id) = [] then none else some true),
             conflict_ids := (if cands.map (fun r => r.id) = [] then none
                              else some (cands.map (fun r => r.id))) },
         created_at := created }]) := by
  set C := cands.map (fun r => r.id) with hC
  set newRec : Record :=
    { id := mid, user_id := user_id, text := text, tag := tag, embedding := emb,
      metadata :=
        { tag := tag, timestamp := ts, hash := hsh, last_accessed := la,
          has_conflicts := (if C = [] then none else some true),
          conflict_ids := (if C = [] then none else some C) },
      created_at := created } with hnewRec
  have hnewId : newRec.id = mid := rfl
  have hnewUser : newRec.user_id = user_id := rfl
  have hnewCids : conflictIdsOf newRec = C := by
    by_cases h : C = [] <;> simp [conflictIdsOf, hnewRec, h]
  have hnewHas : hasConflictsOf newRec = (if C = [] then false else true) := by
    by_cases h : C = [] <;> simp [hasConflictsOf, hnewRec, h]
  have hCmem : ∀ cid ∈ C, ∃ c, c ∈ cands ∧ c.id = cid := by
    intro cid hcid
    obtain ⟨c, hc, hcc⟩ := List.mem_map.mp hcid
    exact ⟨c, hc, hcc⟩
  have hCnoMid : mid ∉ C := by
    intro h
    obtain ⟨c, hc, hcc⟩ := hCmem mid h
    exact hfresh c (hc1 c hc).1 hcc
  have hmid_not_cids : ∀ r ∈ ms, mid ∉ conflictIdsOf r := by
    intro r hr h
    obtain ⟨r', hr', hrid⟩ := hInv.noDangling r hr mid h
    exact hfresh r' hr' hrid
  rw [foldl_updateById_eq (addBackEdge_id mid) C hc2 ms]
  set G : Record → Record := fun r => if r.id ∈ C then addBackEdge mid r else r with hG
  have hGid : ∀ r, (G r).id = r.id := by
    intro r
    by_cases h : r.id ∈ C <;> simp [hG, h, addBackEdge_id]
  have hGuser : ∀ r, (G r).user_id = r.user_id := by
    intro r
    by_cases h : r.id ∈ C <;> simp [hG, h, addBackEdge_user_id]
  have hGcids : ∀ r ∈ ms, conflictIdsOf (G r) =
      if r.id ∈ C then conflictIdsOf r ++ [mid] else conflictIdsOf r := by
    intro r hr
    by_cases h : r.id ∈ C <;>
      simp [hG, h, addBackEdge_cids mid r (hmid_not_cids r hr)]
  have hGhas : ∀ r, r.id ∈ C → hasConflictsOf (G r) = true := by
    intro r h
    simp [hG, h, addBackEdge_has]
  have hGhas' : ∀ r, r.id ∉ C → G r = r := by
    intro r h
    simp [hG, h]
  have hmember : ∀ x, x ∈ ms.map G ++ [newRec] → (∃ r, r ∈ ms ∧ x = G r) ∨ x = newRec := by
    intro x hx
    rcases List.mem_append.mp hx with hx' | hx'
    · obtain ⟨r, hr, hrx⟩ := List.mem_map.mp hx'
      exact Or.inl ⟨r, hr, hrx.symm⟩
    · exact Or.inr (List.mem_singleton.mp hx')
  have hcand_of_mem_C : ∀ r, r ∈ ms → r.id ∈ C → r ∈ cands ∧ r.user_id = user_id := by
    intro r hr hrC
    obtain ⟨c, hc, hcc⟩ := hCmem r.id hrC
    have hceq : r = c := id_inj hInv.nodupIds hr (hc1 c hc).1 hcc.symm
    exact ⟨hceq ▸ hc, hceq ▸ (hc1 c hc).2⟩
  constructor
  · rw [List.map_append, List.map_map]
    have : (ms.map (fun r => (G r).id)) = ms.map (fun r => r.id) :=
      List.map_congr_left (fun r _ => hGid r)
    rw [show ((fun r => r.id) ∘ G) = fun r => (G r).id from rfl, this]
    rw [List.nodup_append]
    refine ⟨hInv.nodupIds, List.nodup_singleton _, ?_⟩
    intro a ha hb
    simp only [List.map_cons, List.map_nil, List.mem_singleton] at hb
    subst hb
    obtain ⟨r, hr, hrid⟩ := List.mem_map.mp ha
    exact hfresh r hr (hrid.trans hnewId)
  · intro x hx cid hcid
    rcases hmember x hx with ⟨r, hr, rfl⟩ | rfl
    · rw [hGcids r hr] at hcid
      by_cases h : r.id ∈ C
      · rw [if_pos h] at hcid
        rcases List.mem_append.mp hcid with hcid' | hcid'
        · obtain ⟨r', hr', hrid⟩ := hInv.noDangling r hr cid hcid'
          exact ⟨G r', List.mem_append_left _ (List.mem_map_of_mem G hr'),
            (hGid r').trans hrid⟩
        · rw [List.mem_singleton] at hcid'
          subst hcid'
          exact ⟨newRec, List.mem_append_right _ (List.mem_singleton_self _), hnewId⟩
      · rw [if_neg h] at hcid
        obtain ⟨r', hr', hrid⟩ := hInv.noDangling r hr cid hcid
        exact ⟨G r', List.mem_append_left _ (List.mem_map_of_mem G hr'),
          (hGid r').trans hrid⟩
    · rw [hnewCids] at hcid
      obtain ⟨c, hc, hcc⟩ := hCmem cid hcid
      exact ⟨G c, List.mem_append_left _ (List.mem_map_of_mem G (hc1 c hc).1),
        (hGid c).trans hcc⟩
  · intro x hx
    rcases hmember x hx with ⟨r, hr, rfl⟩ | rfl
    · rw [hGcids r hr, hGid]
      by_cases h : r.id ∈ C
      · rw [if_pos h]
        intro hmem
        rcases List.mem_append.mp hmem with h' | h'
        · exact hInv.noSelf r hr h'
        · rw [List.mem_singleton] at h'
          exact hfresh r hr h'
      · rw [if_neg h]
        exact hInv.noSelf r hr
    · rw [hnewCids, hnewId]
      exact hCnoMid
  · intro x hx y hy hmem
    rcases hmember x hx with ⟨r, hr, rfl⟩ | rfl <;>
      rcases hmember y hy with ⟨r', hr', rfl⟩ | rfl
    · rw [hGcids r hr] at hmem
      rw [hGid] at hmem
      rw [hGcids r' hr', hGid]
      have hyx : r'.id ∈ conflictIdsOf r → r.id ∈ conflictIdsOf r' :=
        hInv.symm r hr r' hr'
      by_cases h : r.id ∈ C
      · rw [if_pos h] at hmem
        rcases List.mem_append.mp hmem with h' | h'
        · have := hyx h'
          split <;> [exact List.mem_append_left _ this; exact this]
        · rw [List.mem_singleton] at h'
          exact absurd h' (hfresh r' hr')
      · rw [if_neg h] at hmem
        have := hyx hmem
        split <;> [exact List.mem_append_left _ this; exact this]
    · rw [hGcids r hr, hnewId] at hmem
      rw [hnewCids, hGid]
      by_cases h : r.id ∈ C
      · exact h
      · rw [if_neg h] at hmem
        exact absurd hmem (hmid_not_cids r hr)
    · rw [hnewCids, hGid] at hmem
      rw [hGcids r' hr', hnewId]
      have h : r'.id ∈ C := hmem
      rw [if_pos h]
      exact List.mem_append_right _ (List.mem_singleton_self _)
    · rw [hnewCids, hnewId] at hmem
      exact absurd hmem hCnoMid
  · intro x hx y hy hmem
    rcases hmember x hx with ⟨r, hr, rfl⟩ | rfl <;>
      rcases hmember y hy with ⟨r', hr', rfl⟩ | rfl
    · rw [hGcids r hr, hGid] at hmem
      rw [hGuser, hGuser]
      by_cases h : r.id ∈ C
      · rw [if_pos h] at hmem
        rcases List.mem_append.mp hmem with h' | h'
        · exact hInv.sameUser r hr r' hr' h'
        · rw [List.mem_singleton] at h'
          exact absurd h' (hfresh r' hr')
      · rw [if_neg h] at hmem
        exact hInv.sameUser r hr r' hr' hmem
    · rw [hGcids r hr, hnewId] at hmem
      rw [hnewUser, hGuser]
      by_cases h : r.id ∈ C
      · exact ((hcand_of_mem_C r hr h).2).symm
      · rw [if_neg h] at hmem
        exact absurd hmem (hmid_not_cids r hr)
    · rw [hnewCids, hGid] at hmem
      rw [hGuser, hnewUser]
      exact (hcand_of_mem_C r' hr' hmem).2
    · rfl
  · intro x hx
    rcases hmember x hx with ⟨r, hr, rfl⟩ | rfl
    · rw [hGcids r hr]
      by_cases h : r.id ∈ C
      · rw [if_pos h, hGhas r h]
        simp
      · rw [if_neg h, hGhas' r h]
        exact hInv.coherent r hr
    · rw [hnewCids, hnewHas]
      by_cases h : C = [] <;> simp [h]
  · intro x hx
    rcases hmember x hx with ⟨r, hr, rfl⟩ | rfl
    · rw [hGcids r hr]
      by_cases h : r.id ∈ C
      · rw [if_pos h]
        rw [List.nodup_append]
        exact ⟨hInv.edgeNodup r hr, List.nodup_singleton _,
          fun a ha hb => (List.mem_singleton.mp hb ▸ hmid_not_cids r hr) (by
            rw [List.mem_singleton] at hb
            subst hb
            exact ha)⟩
      · rw [if_neg h]
        exact hInv.edgeNodup r hr
    · rw [hnewCids]
      exact hc2

lemma inv_store (env : Env) {st : ServerState} (hInv : InvM st.memories)
    (user_id text tag : String) (ts0 la0 : Option String) (now_ms : Nat) (now_iso : String)
    (hfresh : ∀ r ∈ st.memories, r.id ≠ "mem_" ++ toString now_ms) :
    InvM (store_memory env st user_id text tag ts0 la0 now_ms now_iso).2.memories := by
  simp only [store_memory]
  split
  · exact hInv
  · split
    · exact hInv
    · split
      · exact hInv
      · split
        · exact hInv
        · refine invm_after_store st.memories hInv user_id text tag
            ("mem_" ++ toString now_ms)
            (env.encode text) (some (memoryHash env text tag)) (ts0.getD now_iso)
            (la0.getD now_iso) now_iso _ ?_ ?_ hfresh
          · intro c hc
            have hc' := List.mem_filter.mp hc
            have hmem := topK_subset c hc'.1
            have hmem' := List.mem_filter.mp hmem
            have hprops : c.user_id = user_id ∧ c.tag = tag := by
              simpa using hmem'.2
            exact ⟨hmem'.1, hprops.1⟩
          · exact filter_ids_nodup (topK_ids_nodup (filter_ids_nodup hInv.nodupIds))

lemma invm_delete_core (ms : List Record) (hInv : InvM ms) (mid : String)
    (C : List String)
    (hCsub : ∀ r' ∈ ms, mid ∈ conflictIdsOf r' → r'.id ∈ C)
    (hC : C.Nodup) :
    InvM ((C.foldl (fun acc cid => updateById acc cid (removeEdge mid)) ms).filter
      (fun x => x.id ≠ mid)) := by
  rw [foldl_updateById_eq (removeEdge_id mid) C hC ms]
  set G : Record → Record := fun r => if r.id ∈ C then removeEdge mid r else r with hG
  have hGid : ∀ r, (G r).id = r.id := by
    intro r
    by_cases h : r.id ∈ C <;> simp [hG, h, removeEdge_id]
  have hGuser : ∀ r, (G r).user_id = r.user_id := by
    intro r
    by_cases h : r.id ∈ C <;> simp [hG, h, removeEdge_user_id]
  have hGsub : ∀ r, conflictIdsOf (G r) ⊆ conflictIdsOf r := by
    intro r
    by_cases h : r.id ∈ C
    · simpa [hG, h] using removeEdge_cids_subset mid r
    · simp [hG, h]
  have hGnomid : ∀ r ∈ ms, mid ∉ conflictIdsOf (G r) := by
    intro r hr
    by_cases h : r.id ∈ C
    · simpa [hG, h] using removeEdge_not_mem mid r (hInv.edgeNodup r hr)
    · have hre : G r = r := by simp [hG, h]
      rw [hre]
      intro hmem
      exact absurd (hCsub r hr hmem) h
  have hGmem_of : ∀ r, ∀ cid ∈ conflictIdsOf r, cid ≠ mid → cid ∈ conflictIdsOf (G r) := by
    intro r cid hcid hne
    by_cases h : r.id ∈ C
    · simpa [hG, h] using removeEdge_mem_of mid cid r hcid hne
    · simpa [hG, h] using hcid
  have hmember : ∀ y, y ∈ (ms.map G).filter (fun x => x.id ≠ mid) →
      ∃ r, r ∈ ms ∧ y = G r ∧ r.id ≠ mid := by
    intro y hy
    have hy' := List.mem_filter.mp hy
    obtain ⟨r, hr, hgr⟩ := List.mem_map.mp hy'.1
    refine ⟨r, hr, hgr.symm, ?_⟩
    have : y.id ≠ mid := by simpa using hy'.2
    rw [← hgr, hGid] at this
    exact this
  have hsurvive : ∀ r, r ∈ ms → r.id ≠ mid →
      G r ∈ (ms.map G).filter (fun x => x.id ≠ mid) := by
    intro r hr hne
    refine List.mem_filter.mpr ⟨List.mem_map_of_mem G hr, ?_⟩
    simpa [hGid] using hne
  have hmapIds : ((ms.map G).map (fun r => r.id)) = ms.map (fun r => r.id) := by
    rw [List.map_map]
    exact List.map_congr_left (fun r _ => hGid r)
  constructor
  · refine List.Nodup.sublist ((List.filter_sublist _).map _) ?_
    rw [hmapIds]
    exact hInv.nodupIds
  · intro y hy cid hcid
    obtain ⟨r, hr, rfl, hrne⟩ := hmember y hy
    have hcid' : cid ∈ conflictIdsOf r := hGsub r hcid
    have hcne : cid ≠ mid := by
      intro h
      exact hGnomid r hr (h ▸ hcid)
    obtain ⟨r', hr', hrid⟩ := hInv.noDangling r hr cid hcid'
    refine ⟨G r', hsurvive r' hr' (hrid.trans_ne hcne), (hGid r').trans hrid⟩
  · intro y hy
    obtain ⟨r, hr, rfl, hrne⟩ := hmember y hy
    rw [hGid]
    intro hmem
    exact hInv.noSelf r hr (hGsub r hmem)
  · intro y hy y' hy' hmem
    obtain ⟨r, hr, rfl, hrne⟩ := hmember y hy
    obtain ⟨r', hr', rfl, hrne'⟩ := hmember y' hy'
    rw [hGid] at hmem
    rw [hGid]
    have h1 : r'.id ∈ conflictIdsOf r := hGsub r hmem
    have h2 : r.id ∈ conflictIdsOf r' := hInv.symm r hr r' hr' h1
    exact hGmem_of r' r.id h2 hrne
  · intro y hy y' hy' hmem
    obtain ⟨r, hr, rfl, hrne⟩ := hmember y hy
    obtain ⟨r', hr', rfl, hrne'⟩ := hmember y' hy'
    rw [hGid] at hmem
    rw [hGuser, hGuser]
    exact hInv.sameUser r hr r' hr' (hGsub r hmem)
  · intro y hy
    obtain ⟨r, hr, rfl, hrne⟩ := hmember y hy
    by_cases h : r.id ∈ C
    · have := removeEdge_coherent mid r (hInv.coherent r hr)
      simpa [hG, h] using this
    · simpa [hG, h] using hInv.coherent r hr
  · intro y hy
    obtain ⟨r, hr, rfl, hrne⟩ := hmember y hy
    by_cases h : r.id ∈ C
    · have := removeEdge_edgeNodup mid r (hInv.edgeNodup r hr)
      simpa [hG, h] using this
    · simpa [hG, h] using hInv.edgeNodup r hr

lemma inv_delete (env : Env) {st : ServerState} (hInv : InvM st.memories)
    (user_id memory_id : String) :
    InvM (delete_memory env st user_id memory_id).2.memories := by
  simp only [delete_memory]
  split
  · exact hInv
  · rename_i r hfind
    have hrmem : r ∈ st.memories := List.mem_of_find?_eq_some hfind
    have hrid : r.id = memory_id := by
      have := List.find?_some hfind
      simp only [decide_eq_true_eq] at this
      exact this.1
    split
    · rename_i hguard
      exact invm_delete_core st.memories hInv memory_id (conflictIdsOf r)
        (fun r' hr' hmem => by
          have h1 : r.id ∈ conflictIdsOf r' := hrid ▸ hmem
          exact hInv.symm r' hr' r hrmem h1)
        (hInv.edgeNodup r hrmem)
    · rename_i hguard
      have hnone : ∀ r' ∈ st.memories, memory_id ∉ conflictIdsOf r' := by
        intro r' hr' hmem
        have h1 : r.id ∈ conflictIdsOf r' := hrid ▸ hmem
        have h2 : r'.id ∈ conflictIdsOf r := hInv.symm r' hr' r hrmem h1
        have h3 : conflictIdsOf r ≠ [] := by
          intro h0
          rw [h0] at h2
          cases h2
        have h4 : hasConflictsOf r = true := (hInv.coherent r hrmem).mpr h3
        have h5 : r.metadata.conflict_ids ≠ none := by
          intro h0
          rw [conflictIdsOf, h0] at h3
          exact h3 rfl
        exact hguard ⟨h4, h5⟩
      have := invm_delete_core st.memories hInv memory_id []
        (fun r' hr' hmem => absurd hmem (hnone r' hr')) List.nodup_nil
      simpa using this

lemma collect_prop_aux (P : MemResp → Prop) (tbl : List Record) (resIds : List String) :
    ∀ (cids : List String) (base : List MemResp), (∀ m ∈ base, P m) →
    (∀ cid ∈ cids, ∀ c, findById tbl cid = some c →
      P { id := cid, text := c.text, tag := c.tag, timestamp := c.metadata.timestamp,
          last_accessed := c.metadata.last_accessed, similarity := none }) →
    ∀ m ∈ List.foldl (fun mem cid =>
      if cid ∈ resIds then mem
      else
        match findById tbl cid with
        | some c => mem ++
            [{ id := cid, text := c.text, tag := c.tag, timestamp := c.metadata.timestamp,
               last_accessed := c.metadata.last_accessed, similarity := none }]
        | none => mem) base cids, P m := by
  intro cids
  induction cids with
  | nil =>
      intro base h0 hfetch
      simpa using h0
  | cons cid cids ih =>
      intro base h0 hfetch
      rw [List.foldl_cons]
      refine ih _ ?_ (fun c hc => hfetch c (List.mem_cons_of_mem _ hc))
      by_cases hin : cid ∈ resIds
      · simpa [hin] using h0
      · simp only [hin, if_neg, ite_false]
        cases hfind : findById tbl cid with
        | none => simpa [hfind] using h0
        | some c =>
            simp only [hfind]
            intro m hm
            rcases List.mem_append.mp hm with hm' | hm'
            · exact h0 m hm'
            · rw [List.mem_singleton] at hm'
              subst hm'
              exact hfetch cid (List.mem_cons_self _ _) c hfind

lemma collect_prop (P : MemResp → Prop) (tbl : List Record) (resIds cids : List String)
    (base : List MemResp) (h0 : ∀ m ∈ base, P m)
    (hfetch : ∀ cid ∈ cids, ∀ c, findById tbl cid = some c →
      P { id := cid, text := c.text, tag := c.tag, timestamp := c.metadata.timestamp,
          last_accessed := c.metadata.last_accessed, similarity := none }) :
    ∀ m ∈ collectConflictMembers tbl resIds cids base, P m := by
  unfold collectConflictMembers
  exact collect_prop_aux P tbl resIds cids base h0 hfetch

lemma keyword_search_exhausted (st : ServerState) (query user_id : String)
    (klimit : Nat) (tf : Option String) (exclude : List String)
    (hexcl : ∀ r ∈ st.memories, r.user_id = user_id → tagMatches tf r = true →
      r.id ∈ exclude) :
    keyword_search st query user_id klimit tf exclude = [] := by
  simp only [keyword_search]
  split
  · rfl
  · have hrows : st.memories.filter (fun r =>
        r.user_id = user_id ∧ ((extractKeywords query).any (fun k => ilikeMatch r.text k)) ∧
        tagMatches tf r ∧ r.id ∉ exclude) = [] := by
      rw [List.filter_eq_nil_iff]
      intro r hr hcond
      rw [decide_eq_true_eq] at hcond
      obtain ⟨h1, h2, h3, h4⟩ := hcond
      exact h4 (hexcl r hr h1 h3)
    rw [hrows]
    simp [sortBy]

lemma topK_all_of_short {env : Env} {q : List ℚ} {lim : Nat} {ms : List Record}
    (h : (topKByDistance env q ms lim).length < lim) :
    ∀ r ∈ ms, r ∈ topKByDistance env q ms lim := by
  intro r hr
  unfold topKByDistance at *
  rw [List.length_take] at h
  have hlen : (sortBy (fun a b =>
      decide (env.dist q a.embedding ≤ env.dist q b.embedding)) ms).length ≤ lim := by
    omega
  rw [List.take_of_length_le hlen]
  exact ((sortBy_perm _ ms).mem_iff).mpr hr

lemma pass_fold (ms : List Record) (now_iso : String) (RowOk : Record → ℚ → Prop) :
    ∀ (rows : List Row),
    (∀ row ∈ rows, ∃ r sim, row = Row.sem r sim ∧ RowOk r sim) →
    ∀ (acc : PassAcc) (g0 : Record → Record),
      PreservesCore g0 → acc.table = ms.map g0 →
      (∀ m ∈ acc.resps, ∃ r sim, RowOk r sim ∧ m.id = r.id ∧ m.similarity = some sim) →
      (∀ p ∈ acc.sets, ∀ m ∈ p.2,
        (∃ r sim, RowOk r sim ∧ m.id = r.id ∧ m.similarity = some sim) ∨
        (m.similarity = none ∧ ∃ r sim, RowOk r sim ∧ m.id ∈ conflictIdsOf r ∧
          ∃ c0, c0 ∈ ms ∧ c0.id = m.id)) →
      (∃ g, PreservesCore g ∧ (rows.foldl (firstPassStep now_iso) acc).table = ms.map g) ∧
      (∀ m ∈ (rows.foldl (firstPassStep now_iso) acc).resps,
        ∃ r sim, RowOk r sim ∧ m.id = r.id ∧ m.similarity = some sim) ∧
      (∀ p ∈ (rows.foldl (firstPassStep now_iso) acc).sets, ∀ m ∈ p.2,
        (∃ r sim, RowOk r sim ∧ m.id = r.id ∧ m.similarity = some sim) ∨
        (m.similarity = none ∧ ∃ r sim, RowOk r sim ∧ m.id ∈ conflictIdsOf r ∧
          ∃ c0, c0 ∈ ms ∧ c0.id = m.id)) := by
  intro rows
  induction rows with
  | nil =>
      intro _ acc g0 hg0 htbl hresps hsets
      exact ⟨⟨g0, hg0, htbl⟩, hresps, hsets⟩
  | cons row rows ih =>
      intro hrows acc g0 hg0 htbl hresps hsets
      obtain ⟨r, sim, rfl, hOk⟩ := hrows row (List.mem_cons_self _ _)
      rw [List.foldl_cons]
      set g1 : Record → Record :=
        (fun x => if x.id = r.id then
          { x with metadata := { x.metadata with last_accessed := now_iso } } else x) ∘ g0
        with hg1def
      have hg1 : PreservesCore g1 :=
        preservesCore_comp hg0 (preservesCore_updateById (preservesCore_touch now_iso) r.id)
      have htbl' : (firstPassStep now_iso acc (Row.sem r sim)).table = ms.map g1 := by
        simp only [firstPassStep]
        split <;>
          simp only [htbl, updateById, List.map_map, hg1def]
      have hresp : ∃ r' sim', RowOk r' sim' ∧
          ({ id := r.id, text := r.text, tag := r.tag, timestamp := r.metadata.timestamp,
             last_accessed := now_iso, similarity := some sim } : MemResp).id = r'.id ∧
          ({ id := r.id, text := r.text, tag := r.tag, timestamp := r.metadata.timestamp,
             last_accessed := now_iso, similarity := some sim } : MemResp).similarity =
            some sim' :=
        ⟨r, sim, hOk, rfl, rfl⟩
      have hresps' : ∀ m ∈ (firstPassStep now_iso acc (Row.sem r sim)).resps,
          ∃ r' sim', RowOk r' sim' ∧ m.id = r'.id ∧ m.similarity = some sim' := by
        simp only [firstPassStep]
        split <;>
        · intro m hm
          rcases List.mem_append.mp hm with hm' | hm'
          · exact hresps m hm'
          · rw [List.mem_singleton] at hm'
            subst hm'
            exact hresp
      have hsets' : ∀ p ∈ (firstPassStep now_iso acc (Row.sem r sim)).sets, ∀ m ∈ p.2,
          (∃ r' sim', RowOk r' sim' ∧ m.id = r'.id ∧ m.similarity = some sim') ∨
          (m.similarity = none ∧ ∃ r' sim', RowOk r' sim' ∧ m.id ∈ conflictIdsOf r' ∧
            ∃ c0, c0 ∈ ms ∧ c0.id = m.id) := by
        simp only [firstPassStep]
        split
        · intro p hp m hm
          rcases List.mem_append.mp hp with hp' | hp'
          · exact hsets p hp' m hm
          · rw [List.mem_singleton] at hp'
            subst hp'
            refine collect_prop (fun m =>
              (∃ r' sim', RowOk r' sim' ∧ m.id = r'.id ∧ m.similarity = some sim') ∨
              (m.similarity = none ∧ ∃ r' sim', RowOk r' sim' ∧ m.id ∈ conflictIdsOf r' ∧
                ∃ c0, c0 ∈ ms ∧ c0.id = m.id)) _ _ _ _ ?_ ?_ m hm
            · intro m' hm'
              rw [List.mem_singleton] at hm'
              subst hm'
              exact Or.inl hresp
            · intro cid hcid c hfind
              refine Or.inr ⟨rfl, r, sim, hOk, hcid, ?_⟩
              rw [htbl, updateById, List.map_map] at hfind
              have hfind' := findById_map
                (preservesCore_comp hg0
                  (preservesCore_updateById (preservesCore_touch now_iso) r.id)) ms cid
              rw [hfind'] at hfind
              cases hc0 : findById ms cid with
              | none => rw [hc0] at hfind; cases hfind
              | some c0 =>
                  obtain ⟨hc0mem, hc0id⟩ := findById_mem hc0
                  exact ⟨c0, hc0mem, hc0id⟩
        · intro p hp m hm
          exact hsets p hp m hm
      exact ih (fun row hrow => hrows row (List.mem_cons_of_mem _ hrow))
        (firstPassStep now_iso acc (Row.sem r sim)) g1 hg1 htbl' hresps' hsets'

lemma hybridRows_sem (env : Env) (st : ServerState) (uid query : String)
    (lim : Nat) (tf : Option String) :
    ∀ row ∈ hybridRows env st uid query lim tf,
      ∃ r, row = Row.sem r ((1 : ℚ) - env.dist (env.encode query) r.embedding) ∧
        r ∈ st.memories ∧ r.user_id = uid ∧ tagMatches tf r = true := by
  intro row hrow
  simp only [hybridRows] at hrow
  have hrow' := (sortBy_perm rowDescLe _).subset hrow
  have hsem : row ∈ (topKByDistance env (env.encode query)
      (st.memories.filter (fun r => r.user_id = uid ∧ tagMatches tf r)) lim).map
      (fun r => Row.sem r ((1 : ℚ) - env.dist (env.encode query) r.embedding)) := by
    rcases em ((topKByDistance env (env.encode query)
        (st.memories.filter (fun r => r.user_id = uid ∧ tagMatches tf r)) lim).length
        < lim) with hshort | hlong
    · rw [if_pos hshort] at hrow'
      have hkw : keyword_search st query uid
          (lim - (topKByDistance env (env.encode query)
            (st.memories.filter (fun r => r.user_id = uid ∧ tagMatches tf r)) lim).length)
          tf ((topKByDistance env (env.encode query)
            (st.memories.filter (fun r => r.user_id = uid ∧ tagMatches tf r)) lim).map
            (fun r => r.id)) = [] := by
        apply keyword_search_exhausted
        intro r hr hu ht
        have hmemflt : r ∈ st.memories.filter (fun r => r.user_id = uid ∧ tagMatches tf r) :=
          List.mem_filter.mpr ⟨hr, by simp [hu, ht]⟩
        exact List.mem_map_of_mem (fun r => r.id) (topK_all_of_short hshort r hmemflt)
      rw [hkw] at hrow'
      simpa using hrow'
    · rw [if_neg hlong] at hrow'
      exact hrow'
  obtain ⟨r, hrmem, hrw⟩ := List.mem_map.mp hsem
  have hrflt := List.mem_filter.mp (topK_subset r hrmem)
  have hprops : r.user_id = uid ∧ tagMatches tf r = true := by simpa using hrflt.2
  exact ⟨r, hrw.symm, hrflt.1, hprops.1, hprops.2⟩

lemma foldl_orElse_some {α β : Type} (f : α → Option β) :
    ∀ (l : List α) (acc : Option β) (m : β),
    l.foldl (fun acc p => acc <|> f p) acc = some m →
    acc = some m ∨ ∃ p ∈ l, f p = some m := by
  intro l
  induction l with
  | nil => exact fun acc m h => Or.inl h
  | cons p l ih =>
      intro acc m h
      rw [List.foldl_cons] at h
      rcases ih _ m h with h' | ⟨p', hp', hf'⟩
      · cases acc with
        | some a => exact Or.inl (by simpa using h')
        | none => exact Or.inr ⟨p, List.mem_cons_self _ _, by simpa using h'⟩
      · exact Or.inr ⟨p', List.mem_cons_of_mem _ hp', hf'⟩

lemma lookupMember_mem {resps : List MemResp} {sets : List (String × List MemResp)}
    {i : String} {m : MemResp} (h : lookupMember resps sets i = some m) :
    m ∈ resps ∨ ∃ p ∈ sets, m ∈ p.2 := by
  unfold lookupMember at h
  cases hf : resps.find? (fun x => x.id = i) with
  | some m0 =>
      rw [hf] at h
      injection h with h
      subst h
      exact Or.inl (List.mem_of_find?_eq_some hf)
  | none =>
      rw [hf] at h
      rcases foldl_orElse_some (fun p => p.2.find? (fun c => c.id = i)) sets none m h with
        h' | ⟨p, hp, hfp⟩
      · cases h'
      · exact Or.inr ⟨p, hp, List.mem_of_find?_eq_some hfp⟩

lemma dedupeConflicts_subset (env : Env) (l : List MemResp) :
    ∀ m ∈ dedupeConflicts env l, m ∈ l := by
  unfold dedupeConflicts
  split
  · exact fun m hm => hm
  · intro m hm
    have hm' := (sortBy_perm _ _).subset hm
    have haux : ∀ (cs : List MemResp) (acc : List MemResp) (x : MemResp),
        x ∈ cs.foldl (fun uniq c =>
          match uniq.find? (fun u =>
              env.npCosSim (env.encode c.text) (env.encode u.text) > 95/100) with
          | some u => if u.timestamp < c.timestamp then uniq.erase u ++ [c] else uniq
          | none => uniq ++ [c]) acc → x ∈ acc ∨ x ∈ cs := by
      intro cs
      induction cs with
      | nil => exact fun acc x hx => Or.inl hx
      | cons c cs ih =>
          intro acc x hx
          rw [List.foldl_cons] at hx
          rcases ih _ x hx with hx' | hx'
          · split at hx'
            · split at hx'
              · rcases List.mem_append.mp hx' with h1 | h1
                · exact Or.inl (List.mem_of_mem_erase h1)
                · rw [List.mem_singleton] at h1
                  exact Or.inr (h1 ▸ List.mem_cons_self _ _)
              · exact Or.inl hx'
            · rcases List.mem_append.mp hx' with h1 | h1
              · exact Or.inl h1
              · rw [List.mem_singleton] at h1
                exact Or.inr (h1 ▸ List.mem_cons_self _ _)
          · exact Or.inr (List.mem_cons_of_mem _ hx')
    rcases haux l [] m hm' with h0 | h0
    · cases h0
    · exact h0

lemma buildConflictGroups_mem {resps : List MemResp}
    {setsD : List (String × List MemResp)} {grp : List MemResp} {m : MemResp}
    (hg : grp ∈ buildConflictGroups resps setsD) (hm : m ∈ grp) :
    m ∈ resps ∨ ∃ p ∈ setsD, m ∈ p.2 := by
  simp only [buildConflictGroups] at hg
  obtain ⟨g0, hg0, hgw⟩ := List.mem_map.mp hg
  rw [← hgw] at hm
  have hm' : m ∈ g0.filterMap (lookupMember resps setsD) :=
    (sortBy_perm _ _).subset hm
  obtain ⟨i, hi, hlook⟩ := List.mem_filterMap.mp hm'
  exact lookupMember_mem hlook

/-- Property of every entry of the primary result list of a search: it
projects a record of the calling user and carries the semantic similarity
`1 - distance`. -/
def SearchRowProp (env : Env) (st : ServerState) (uid query : String)
    (tf : Option String) (m : MemResp) : Prop :=
  ∃ r, r ∈ st.memories ∧ r.user_id = uid ∧ tagMatches tf r = true ∧ m.id = r.id ∧
    m.similarity = some ((1 : ℚ) - env.dist (env.encode query) r.embedding)

/-- Property of every conflict-set member fetched by id: no similarity, and
the id was referenced from a conflict edge of one of the caller's returned
records (and exists in the table). -/
def SearchFetchProp (st : ServerState) (uid : String) (tf : Option String)
    (m : MemResp) : Prop :=
  m.similarity = none ∧ ∃ r, r ∈ st.memories ∧ r.user_id = uid ∧ tagMatches tf r = true ∧
    m.id ∈ conflictIdsOf r ∧ ∃ c0, c0 ∈ st.memories ∧ c0.id = m.id

lemma searchBody_props (env : Env) (st : ServerState) (uid query : String)
    (lim : Nat) (tf : Option String) (now_iso : String) :
    (∃ g, PreservesCore g ∧
      (searchBody env st uid query lim tf now_iso).2.memories = st.memories.map g) ∧
    ∀ resp, (searchBody env st uid query lim tf now_iso).1 = SearchOutcome.ok resp →
      (∀ m ∈ resp.results, SearchRowProp env st uid query tf m) ∧
      (∀ grp ∈ resp.conflict_groups.getD [], ∀ m ∈ grp,
        SearchRowProp env st uid query tf m ∨ SearchFetchProp st uid tf m) := by
  have hrows : ∀ row ∈ hybridRows env st uid query lim tf,
      ∃ r sim, row = Row.sem r sim ∧
        (r ∈ st.memories ∧ r.user_id = uid ∧ tagMatches tf r = true ∧
          sim = (1 : ℚ) - env.dist (env.encode query) r.embedding) := by
    intro row hrow
    obtain ⟨r, hrw, h1, h2, h3⟩ := hybridRows_sem env st uid query lim tf row hrow
    exact ⟨r, _, hrw, h1, h2, h3, rfl⟩
  have hP := pass_fold st.memories now_iso
    (fun r sim => r ∈ st.memories ∧ r.user_id = uid ∧ tagMatches tf r = true ∧
      sim = (1 : ℚ) - env.dist ( env.encode query) r.embedding)
    (hybridRows env st uid query lim tf) hrows
    ⟨st.memories, [], []⟩ (fun r => r) preservesCore_id (by simp)
    (by intro m hm; cases hm) (by intro p hp; cases hp)
  obtain ⟨⟨g, hg, htbl⟩, hresps, hsets⟩ := hP
  have hRowToProp : ∀ m : MemResp,
      (∃ r sim, (r ∈ st.memories ∧ r.user_id = uid ∧ tagMatches tf r = true ∧
        sim = (1 : ℚ) - env.dist (env.encode query) r.embedding) ∧
        m.id = r.id ∧ m.similarity = some sim) →
      SearchRowProp env st uid query tf m := by
    intro m ⟨r, sim, ⟨ha, hb, hc, hd⟩, he, hf⟩
    exact ⟨r, ha, hb, hc, he, by rw [hf, hd]⟩
  constructor
  · exact ⟨g, hg, htbl⟩
  · intro resp hresp
    simp only [searchBody] at hresp
    have hrespEq : resp =
        (if ((((hybridRows env st uid query lim tf).foldl (firstPassStep now_iso)
            ⟨st.memories, [], []⟩).sets.map
            (fun p => (p.1, dedupeConflicts env p.2))).isEmpty = false) then
          if buildConflictGroups
              ((hybridRows env st uid query lim tf).foldl (firstPassStep now_iso)
                ⟨st.memories, [], []⟩).resps
              (((hybridRows env st uid query lim tf).foldl (firstPassStep now_iso)
                ⟨st.memories, [], []⟩).sets.map
                (fun p => (p.1, dedupeConflicts env p.2))) ≠ [] then
            { query := query,
              results := ((hybridRows env st uid query lim tf).foldl (firstPassStep now_iso)
                ⟨st.memories, [], []⟩).resps,
              count := ((hybridRows env st uid query lim tf).foldl (firstPassStep now_iso)
                ⟨st.memories, [], []⟩).resps.length,
              conflict_groups := some (buildConflictGroups
                ((hybridRows env st uid query lim tf).foldl (firstPassStep now_iso)
                  ⟨st.memories, [], []⟩).resps
                (((hybridRows env st uid query lim tf).foldl (firstPassStep now_iso)
                  ⟨st.memories, [], []⟩).sets.map
                  (fun p => (p.1, dedupeConflicts env p.2)))) }
          else
            { query := query,
              results := ((hybridRows env st uid query lim tf).foldl (firstPassStep now_iso)
                ⟨st.memories, [], []⟩).resps,
              count := ((hybridRows env st uid query lim tf).foldl (firstPassStep now_iso)
                ⟨st.memories, [], []⟩).resps.length,
              conflict_sets := some (((hybridRows env st uid query lim tf).foldl
                (firstPassStep now_iso) ⟨st.memories, [], []⟩).sets.map
                (fun p => (p.1, dedupeConflicts env p.2))) }
        else
          { query := query,
            results := ((hybridRows env st uid query lim tf).foldl (firstPassStep now_iso)
              ⟨st.memories, [], []⟩).resps,
            count := ((hybridRows env st uid query lim tf).foldl (firstPassStep now_iso)
              ⟨st.memories, [], []⟩).resps.length,
            conflict_sets := some (manualConflictSets
              ((hybridRows env st uid query lim tf).foldl (firstPassStep now_iso)
                ⟨st.memories, [], []⟩).table
              ((hybridRows env st uid query lim tf).foldl (firstPassStep now_iso)
                ⟨st.memories, [], []⟩).resps) }) := by
      injection hresp with h
      exact h.symm
    constructor
    · intro m hm
      rw [hrespEq] at hm
      have hm' : m ∈ ((hybridRows env st uid query lim tf).foldl (firstPassStep now_iso)
          ⟨st.memories, [], []⟩).resps := by
        revert hm
        split
        · split <;> exact fun hm => hm
        · exact fun hm => hm
      exact hRowToProp m (hresps m hm')
    · intro grp hgrp m hm
      rw [hrespEq] at hgrp
      revert hgrp
      split
      · split
        · intro hgrp
          simp only [Option.getD_some] at hgrp
          rcases buildConflictGroups_mem hgrp hm with hmr | ⟨p, hp, hmp⟩
          · exact Or.inl (hRowToProp m (hresps m hmr))
          · obtain ⟨p0, hp0, hpw⟩ := List.mem_map.mp hp
            rw [← hpw] at hmp
            have hmp0 : m ∈ p0.2 := dedupeConflicts_subset env p0.2 m hmp
            rcases hsets p0 hp0 m hmp0 with hmr | ⟨hnone, r, sim, hOk, hcid, c0, hc0, hc0id⟩
            · exact Or.inl (hRowToProp m hmr)
            · exact Or.inr ⟨hnone, r, hOk.1, hOk.2.1, hOk.2.2.1, hcid, c0, hc0, hc0id⟩
        · intro hgrp
          simp only [Option.getD_none] at hgrp
          cases hgrp
      · intro hgrp
        simp only [Option.getD_none] at hgrp
        cases hgrp

lemma search_memories_table (env : Env) (st : ServerState) (uid query : String)
    (lim : Nat) (tf : Option String) (now_iso : String) :
    ∃ g, PreservesCore g ∧
      (search_memories env st uid query lim tf now_iso).2.memories = st.memories.map g := by
  unfold search_memories
  split
  · split
    · exact ⟨fun r => r, preservesCore_id, by simp⟩
    · exact (searchBody_props env st uid query lim _ now_iso).1
  · exact (searchBody_props env st uid query lim none now_iso).1

lemma search_memories_ok_props (env : Env) (st : ServerState) (uid query : String)
    (lim : Nat) (tf : Option String) (now_iso : String) (resp : SearchResponse)
    (hresp : (search_memories env st uid query lim tf now_iso).1 = SearchOutcome.ok resp) :
    (∀ m ∈ resp.results, SearchRowProp env st uid query tf m) ∧
    (∀ grp ∈ resp.conflict_groups.getD [], ∀ m ∈ grp,
      SearchRowProp env st uid query tf m ∨ SearchFetchProp st uid tf m) := by
  unfold search_memories at hresp
  revert hresp
  split
  · split
    · intro hresp
      cases hresp
    · exact fun hresp => (searchBody_props env st uid query lim _ now_iso).2 resp hresp
  · exact fun hresp => (searchBody_props env st uid query lim none now_iso).2 resp hresp

lemma inv_search (env : Env) {st : ServerState} (hInv : InvM st.memories)
    (uid query : String) (lim : Nat) (tf : Option String) (now_iso : String) :
    InvM (search_memories env st uid query lim tf now_iso).2.memories := by
  obtain ⟨g, hg, htbl⟩ := search_memories_table env st uid query lim tf now_iso
  rw [htbl]
  exact invm_map_core hg hInv

lemma length_filter_user_map {g : Record → Record}
    (hguser : ∀ r, (g r).user_id = r.user_id) (ms : List Record) (u : String) :
    ((ms.map g).filter (fun r => r.user_id = u)).length =
      (ms.filter (fun r => r.user_id = u)).length := by
  induction ms with
  | nil => rfl
  | cons x xs ih =>
      by_cases h : x.user_id = u <;>
        simp [List.filter_cons, hguser x, h, ih]

lemma search_state_eq (env : Env) (st : ServerState) (uid query : String)
    (lim : Nat) (tf : Option String) (now_iso : String) :
    (search_memories env st uid query lim tf now_iso).2.memory_hashes = st.memory_hashes ∧
    (search_memories env st uid query lim tf now_iso).2.admin_users = st.admin_users := by
  unfold search_memories searchBody
  split
  · split
    · exact ⟨rfl, rfl⟩
    · exact ⟨rfl, rfl⟩
  · exact ⟨rfl, rfl⟩

lemma search_count (env : Env) (st : ServerState) (uid query : String)
    (lim : Nat) (tf : Option String) (now_iso : String) (u : String) :
    count_memories (search_memories env st uid query lim tf now_iso).2 u =
      count_memories st u := by
  obtain ⟨g, hg, htbl⟩ := search_memories_table env st uid query lim tf now_iso
  unfold count_memories
  rw [htbl, length_filter_user_map (fun r => (hg r).2.1)]

lemma store_skipped (env : Env) (st : ServerState) (user_id text tag : String)
    (ts0 la0 : Option String) (now_ms : Nat) (now_iso : String)
    (htag : tag ∈ VALID_TAGS) (hhash : memoryHash env text tag ∈ st.memory_hashes) :
    store_memory env st user_id text tag ts0 la0 now_ms now_iso =
      (.skipped text tag, st) := by
  simp only [store_memory]
  rw [if_neg (not_not_intro htag), if_pos hhash]

lemma store_quota_reject (env : Env) (st : ServerState) (user_id text tag : String)
    (ts0 la0 : Option String) (now_ms : Nat) (now_iso : String)
    (htag : tag ∈ VALID_TAGS) (hhash : memoryHash env text tag ∉ st.memory_hashes)
    (hadmin : user_id ∉ st.admin_users) (hcount : count_memories st user_id ≥ 25) :
    store_memory env st user_id text tag ts0 la0 now_ms now_iso =
      (.limitReached (count_memories st user_id) 25,
       { st with memory_hashes := memoryHash env text tag :: st.memory_hashes }) := by
  simp only [store_memory]
  rw [if_neg (not_not_intro htag), if_neg hhash, if_pos ⟨hadmin, hcount⟩]

lemma store_admin_eq (env : Env) (st : ServerState) (user_id text tag : String)
    (ts0 la0 : Option String) (now_ms : Nat) (now_iso : String) :
    (store_memory env st user_id text tag ts0 la0 now_ms now_iso).2.admin_users =
      st.admin_users := by
  simp only [store_memory]
  split
  · rfl
  · split
    · rfl
    · split
      · rfl
      · split <;> rfl

lemma delete_admin_eq (env : Env) (st : ServerState) (user_id memory_id : String) :
    (delete_memory env st user_id memory_id).2.admin_users = st.admin_users := by
  simp only [delete_memory]
  split <;> rfl

lemma step_admin_eq {env : Env} {st st' : ServerState} (h : Step env st st') :
    st'.admin_users = st.admin_users := by
  cases h with
  | store user_id text tag ts0 la0 now_ms now_iso hfresh =>
      exact store_admin_eq env st user_id text tag ts0 la0 now_ms now_iso
  | del user_id memory_id => exact delete_admin_eq env st user_id memory_id
  | search user_id query limit tag_filter now_iso =>
      exact (search_state_eq env st user_id query limit tag_filter now_iso).2

lemma count_fold_user {f : Record → Record} (hf : ∀ r, (f r).user_id = r.user_id)
    (C : List String) (ms : List Record) (u : String) :
    ((C.foldl (fun acc cid => updateById acc cid f) ms).filter
      (fun r => r.user_id = u)).length =
    (ms.filter (fun r => r.user_id = u)).length := by
  induction C generalizing ms with
  | nil => rfl
  | cons c C ih =>
      rw [List.foldl_cons, ih, updateById]
      exact length_filter_user_map
        (fun r => by by_cases h : r.id = c <;> simp [h, hf]) ms u

lemma count_state_le {ms2 : List Record} {hs ad : List String} {u : String} {n : Nat}
    (h : (ms2.filter (fun r => r.user_id = u)).length ≤ n) :
    count_memories ⟨ms2, hs, ad⟩ u ≤ n := h

lemma store_count_le (env : Env) (st : ServerState) (user_id text tag : String)
    (ts0 la0 : Option String) (now_ms : Nat) (now_iso : String)
    (u : String) (hadmin : u ∉ st.admin_users) (hle : count_memories st u ≤ 25) :
    count_memories (store_memory env st user_id text tag ts0 la0 now_ms now_iso).2 u ≤ 25 := by
  simp only [store_memory]
  split
  · exact hle
  · split
    · exact hle
    · split
      · exact hle
      · rename_i hquota
        split
        · exact hle
        · apply count_state_le
          rw [List.filter_append, List.length_append,
              count_fold_user (addBackEdge_user_id ("mem_" ++ toString now_ms))]
          rw [List.filter_cons, List.filter_nil]
          by_cases hu : user_id = u
          · rw [if_pos (by simp [hu])]
            have hcnt : count_memories st user_id < 25 := by
              by_contra hge
              exact hquota ⟨hu ▸ hadmin, by omega⟩
            unfold count_memories at hcnt
            rw [hu] at hcnt
            simp only [List.length_cons, List.length_nil]
            omega
          · rw [if_neg (by simp [hu])]
            unfold count_memories at hle
            simpa using hle

lemma delete_count_le (env : Env) (st : ServerState) (user_id memory_id : String)
    (u : String) :
    count_memories (delete_memory env st user_id memory_id).2 u ≤
      count_memories st u := by
  simp only [delete_memory]
  split
  · exact le_refl _
  · have hsub : ∀ (l : List Record),
        ((l.filter (fun x => x.id ≠ memory_id)).filter (fun r => r.user_id = u)).length ≤
        (l.filter (fun r => r.user_id = u)).length :=
      fun l => List.Sublist.length_le (List.Sublist.filter _ (List.filter_sublist l))
    unfold count_memories
    refine le_trans (hsub _) ?_
    split
    · rw [count_fold_user (removeEdge_user_id memory_id)]
    · exact le_refl _

/-- The inductive state invariant: conflict-graph well-formedness plus the
non-admin quota bound. -/
def EngineInv (st : ServerState) : Prop :=
  InvM st.memories ∧ ∀ u, u ∉ st.admin_users → count_memories st u ≤ 25

lemma invm_nil : InvM ([] : List Record) := by
  constructor <;> simp

lemma engineInv_step {env : Env} {st st' : ServerState} (h : EngineInv st)
    (hs : Step env st st') : EngineInv st' := by
  cases hs with
  | store user_id text tag ts0 la0 now_ms now_iso hfresh =>
      refine ⟨inv_store env h.1 user_id text tag ts0 la0 now_ms now_iso hfresh, ?_⟩
      intro u hu
      rw [store_admin_eq] at hu
      exact store_count_le env st user_id text tag ts0 la0 now_ms now_iso u hu (h.2 u hu)
  | del user_id memory_id =>
      refine ⟨inv_delete env h.1 user_id memory_id, ?_⟩
      intro u hu
      rw [delete_admin_eq] at hu
      exact le_trans (delete_count_le env st user_id memory_id u) (h.2 u hu)
  | search user_id query limit tag_filter now_iso =>
      refine ⟨inv_search env h.1 user_id query limit tag_filter now_iso, ?_⟩
      intro u hu
      rw [(search_state_eq env st user_id query limit tag_filter now_iso).2] at hu
      rw [search_count]
      exact h.2 u hu

lemma reachable_engineInv {env : Env} {st : ServerState} (h : Reachable env st) :
    EngineInv st := by
  induction h with
  | init admins =>
      exact ⟨invm_nil, fun u _ => by simp [count_memories]⟩
  | step _ hs ih => exact engineInv_step ih hs

/-- States reachable from a given state by engine operations. -/
inductive ReachFrom (env : Env) : ServerState → ServerState → Prop where
  | refl (st : ServerState) : ReachFrom env st st
  | step {st st' st'' : ServerState} :
      ReachFrom env st st' → Step env st' st'' → ReachFrom env st st''

/-- A hash value that sits in the process-wide cache while no stored record
carries it: the footprint a quota-rejected `remember` leaves behind. -/
def PhantomHash (st : ServerState) (h : String) : Prop :=
  h ∈ st.memory_hashes ∧
  ∀ r ∈ st.memories, ∃ h', r.metadata.hash = some h' ∧ h' ≠ h

lemma phantom_store (env : Env) (st : ServerState) (user_id text tag : String)
    (ts0 la0 : Option String) (now_ms : Nat) (now_iso : String) {h : String}
    (hP : PhantomHash st h) :
    PhantomHash (store_memory env st user_id text tag ts0 la0 now_ms now_iso).2 h := by
  obtain ⟨h1, h2⟩ := hP
  simp only [store_memory]
  split
  · exact ⟨h1, h2⟩
  · split
    · exact ⟨h1, h2⟩
    · rename_i hnotin
      have hne : memoryHash env text tag ≠ h := fun he => hnotin (he ▸ h1)
      split
      · exact ⟨List.mem_cons_of_mem _ h1, h2⟩
      · split
        · exact ⟨List.mem_cons_of_mem _ h1, h2⟩
        · refine ⟨List.mem_cons_of_mem _ h1, ?_⟩
          intro r hr
          rcases List.mem_append.mp hr with hr' | hr'
          · refine foldl_updateById_forall
              (P := fun r => ∃ h', r.metadata.hash = some h' ∧ h' ≠ h) ?_ _ _ h2 r hr'
            intro x ⟨h', hh', hne'⟩
            exact ⟨h', (addBackEdge_hash _ x).symm ▸ hh', hne'⟩
          · rw [List.mem_singleton] at hr'
            subst hr'
            exact ⟨memoryHash env text tag, rfl, hne⟩

lemma phantom_delete (env : Env) (st : ServerState) (user_id memory_id : String)
    {h : String} (hP : PhantomHash st h) :
    PhantomHash (delete_memory env st user_id memory_id).2 h := by
  obtain ⟨h1, h2⟩ := hP
  simp only [delete_memory]
  split
  · exact ⟨h1, h2⟩
  · rename_i r hfind
    have hrmem : r ∈ st.memories := List.mem_of_find?_eq_some hfind
    obtain ⟨hr', hrh, hrne⟩ := h2 r hrmem
    have hall : ∀ x ∈ (if hasConflictsOf r ∧ r.metadata.conflict_ids ≠ none then
        (conflictIdsOf r).foldl
          (fun ms cid => updateById ms cid (removeEdge memory_id)) st.memories
      else st.memories), ∃ h', x.metadata.hash = some h' ∧ h' ≠ h := by
      split
      · refine foldl_updateById_forall
          (P := fun x => ∃ h', x.metadata.hash = some h' ∧ h' ≠ h) ?_ _ _ h2
        intro x ⟨h', hh', hne'⟩
        exact ⟨h', (removeEdge_hash _ x).symm ▸ hh', hne'⟩
      · exact h2
    refine ⟨?_, ?_⟩
    · rw [hrh]
      exact (List.mem_erase_of_ne (fun he => hrne he.symm)).mpr h1
    · intro x hx
      exact hall x (List.mem_filter.mp hx).1

lemma phantom_search (env : Env) (st : ServerState) (uid query : String)
    (lim : Nat) (tf : Option String) (now_iso : String) {h : String}
    (hP : PhantomHash st h) :
    PhantomHash (search_memories env st uid query lim tf now_iso).2 h := by
  obtain ⟨g, hg, htbl⟩ := search_memories_table env st uid query lim tf now_iso
  obtain ⟨h1, h2⟩ := hP
  refine ⟨?_, ?_⟩
  · rw [(search_state_eq env st uid query lim tf now_iso).1]
    exact h1
  · rw [htbl]
    intro x hx
    obtain ⟨r, hr, rfl⟩ := List.mem_map.mp hx
    obtain ⟨h', hh', hne⟩ := h2 r hr
    exact ⟨h', ((hg r).2.2.2.2.2.1).symm ▸ hh', hne⟩

lemma phantom_step {env : Env} {st st' : ServerState} {h : String}
    (hP : PhantomHash st h) (hs : Step env st st') : PhantomHash st' h := by
  cases hs with
  | store user_id text tag ts0 la0 now_ms now_iso hfresh =>
      exact phantom_store env st user_id text tag ts0 la0 now_ms now_iso hP
  | del user_id memory_id => exact phantom_delete env st user_id memory_id hP
  | search user_id query limit tag_filter now_iso =>
      exact phantom_search env st user_id query limit tag_filter now_iso hP

lemma phantom_reach {env : Env} {st st' : ServerState} {h : String}
    (hP : PhantomHash st h) (hr : ReachFrom env st st') : PhantomHash st' h := by
  induction hr with
  | refl => exact hP
  | step _ hs ih => exact phantom_step ih hs


/-! Helper lemmas for the claim theorems. -/

lemma store_stored_hash (env : Env) (st : ServerState) (user_id text tag : String)
    (ts0 la0 : Option String) (now_ms : Nat) (now_iso : String) (i t g ts : String)
    (h1 : (store_memory env st user_id text tag ts0 la0 now_ms now_iso).1 =
      StoreOutcome.stored i t g ts) :
    tag ∈ VALID_TAGS ∧
    memoryHash env text tag ∈
      (store_memory env st user_id text tag ts0 la0 now_ms now_iso).2.memory_hashes := by
  by_cases htag : tag ∈ VALID_TAGS
  · refine ⟨htag, ?_⟩
    revert h1
    simp only [store_memory]
    rw [if_neg (not_not_intro htag)]
    split
    · intro h1; cases h1
    · split
      · intro h1; cases h1
      · split
        · intro h1; cases h1
        · intro _
          exact List.mem_cons_self _ _
  · simp only [store_memory, if_pos htag] at h1
    cases h1

lemma find?_append_none {α : Type} (p : α → Bool) (l1 l2 : List α)
    (h : l1.find? p = none) : (l1 ++ l2).find? p = l2.find? p := by
  induction l1 with
  | nil => rfl
  | cons a l ih =>
      rw [List.find?_cons] at h
      cases hp : p a with
      | true => simp only [hp] at h; cases h
      | false =>
          simp only [hp] at h
          rw [List.cons_append, List.find?_cons]
          simp only [hp]
          exact ih h

lemma find?_map_replace {α : Type} (l : List (String × α)) (k : String) (v : α)
    (h : (l.find? (fun p => p.1 = k)).isSome) :
    (l.map (fun p => if p.1 = k then (k, v) else p)).find? (fun p => p.1 = k) =
      some (k, v) := by
  induction l with
  | nil => simp [List.find?] at h
  | cons p ps ih =>
      by_cases hp : p.1 = k
      · simp [List.find?, hp]
      · have hd : decide (p.1 = k) = false := by simp [hp]
        rw [List.find?_cons] at h
        simp only [hd] at h
        simp only [List.map_cons, if_neg hp]
        rw [List.find?_cons]
        simp only [hd]
        exact ih h

lemma lookupAssoc_setAssoc_self {α : Type} (l : List (String × α)) (k : String)
    (v : α) : lookupAssoc (setAssoc l k v) k = some v := by
  unfold setAssoc
  split
  · rename_i h
    unfold lookupAssoc
    rw [find?_map_replace l k v h]
    rfl
  · rename_i h
    unfold lookupAssoc
    rw [find?_append_none _ l _ (Option.not_isSome_iff_eq_none.mp h)]
    simp [List.find?]

lemma injectUserToken_eq (token : String) (kvs pkvs akvs : List (String × Json))
    (hm : lookupAssoc kvs "method" = some (.str "tools/call"))
    (hp : lookupAssoc kvs "params" = some (.obj pkvs))
    (ha : lookupAssoc pkvs "arguments" = some (.obj akvs)) :
    injectUserToken token (.obj kvs) =
      .rewritten (.obj (setAssoc kvs "params"
        (.obj (setAssoc pkvs "arguments"
          (.obj (setAssoc akvs "user_token" (.str token))))))) := by
  have hfind : (pkvs.find? (fun p => p.1 = "arguments")).isSome = true := by
    unfold lookupAssoc at ha
    cases hf : pkvs.find? (fun p => p.1 = "arguments") with
    | none => rw [hf] at ha; cases ha
    | some pr => rfl
  simp only [injectUserToken, hm, hp, pyContains, hfind, ha]
  exact if_pos trivial

lemma delete_not_found (env : Env) (st : ServerState) (user_id memory_id : String)
    (h : ∀ r ∈ st.memories, ¬(r.id = memory_id ∧ r.user_id = user_id)) :
    delete_memory env st user_id memory_id = (.notFound, st) := by
  simp only [delete_memory]
  have hfind : st.memories.find? (fun r => r.id = memory_id ∧ r.user_id = user_id)
      = none := by
    rw [List.find?_eq_none]
    intro r hr
    simpa using h r hr
  rw [hfind]

lemma delete_core_removes (ms : List Record) (hInv : InvM ms) (mid : String)
    (C : List String)
    (hC : C.Nodup) :
    ∀ x ∈ ((C.foldl (fun acc cid => updateById acc cid (removeEdge mid)) ms).filter
      (fun x => x.id ≠ mid)), x.id ≠ mid ∧
        (x.id ∈ C → mid ∉ conflictIdsOf x) := by
  rw [foldl_updateById_eq (removeEdge_id mid) C hC ms]
  intro x hx
  have hx' := List.mem_filter.mp hx
  obtain ⟨r, hr, hgr⟩ := List.mem_map.mp hx'.1
  have hxid : x.id ≠ mid := by simpa using hx'.2
  refine ⟨hxid, ?_⟩
  intro hxC
  rw [← hgr]
  rw [← hgr] at hxC
  by_cases h : r.id ∈ C
  · simpa [h] using removeEdge_not_mem mid r (hInv.edgeNodup r hr)
  · rw [if_neg h] at hxC
    exact absurd hxC h

lemma delete_removes (env : Env) {st : ServerState} (hInv : InvM st.memories)
    (user_id memory_id : String) {r0 : Record} (hr0 : r0 ∈ st.memories)
    (hid : r0.id = memory_id) (huser : r0.user_id = user_id) :
    ∀ x ∈ (delete_memory env st user_id memory_id).2.memories,
      memory_id ∉ conflictIdsOf x ∧ x.id ≠ memory_id := by
  simp only [delete_memory]
  split
  · rename_i hfind
    rw [List.find?_eq_none] at hfind
    exact absurd (by simp [hid, huser]) (hfind r0 hr0)
  · rename_i r hfind
    have hrmem : r ∈ st.memories := List.mem_of_find?_eq_some hfind
    have hrid : r.id = memory_id := by
      have := List.find?_some hfind
      simp only [decide_eq_true_eq] at this
      exact this.1
    split
    · rename_i hguard
      intro x hx
      have h1 := delete_core_removes st.memories hInv memory_id (conflictIdsOf r)
        (hInv.edgeNodup r hrmem) x hx
      refine ⟨?_, h1.1⟩
      intro hmem
      have hxC : x.id ∈ conflictIdsOf r := by
        -- x survives the filter, so it is the image of a member of the table;
        -- symmetry of the invariant turns the reference back into an edge of r
        rw [foldl_updateById_eq (removeEdge_id memory_id) (conflictIdsOf r)
          (hInv.edgeNodup r hrmem) st.memories] at hx
        have hx' := List.mem_filter.mp hx
        obtain ⟨y, hy, hgy⟩ := List.mem_map.mp hx'.1
        have hyid : x.id = y.id := by
          rw [← hgy]
          by_cases h : y.id ∈ conflictIdsOf r
          · simp [h, removeEdge_id]
          · simp [h]
        have hymem : memory_id ∈ conflictIdsOf y := by
          rw [← hgy] at hmem
          by_cases h : y.id ∈ conflictIdsOf r
          · exact removeEdge_cids_subset memory_id y (by simpa [h] using hmem)
          · simpa [h] using hmem
        have := hInv.symm y hy r hrmem (hrid.symm ▸ hymem)
        rw [hyid]
        exact this
      exact (h1.2 hxC) hmem
    · rename_i hguard
      intro x hx
      have hx' := List.mem_filter.mp hx
      have hxid : x.id ≠ memory_id := by simpa using hx'.2
      refine ⟨?_, hxid⟩
      intro hmem
      have h1 : r.id ∈ conflictIdsOf x := hrid.symm ▸ hmem
      have h2 : x.id ∈ conflictIdsOf r := hInv.symm x hx'.1 r hrmem h1
      have h3 : conflictIdsOf r ≠ [] := fun h0 => by rw [h0] at h2; cases h2
      have h4 : hasConflictsOf r = true := (hInv.coherent r hrmem).mpr h3
      have h5 : r.metadata.conflict_ids ≠ none := fun h0 => by
        rw [conflictIdsOf, h0] at h3
        exact h3 rfl
      exact hguard ⟨h4, h5⟩


/-! Concrete environments and reachable states used by the witnesses.  The
`md5Hex` field is instantiated with the identity function: the engine only
uses the digest as an opaque cache key, and distinct inputs stay distinct. -/

/-- Environment in which every pair of embeddings is at the maximal cosine
distance 2 (opposite unit vectors): no duplicates and no conflicts are ever
detected. -/
def envC5 : Env :=
  { encode := fun _ => [0], dist := fun _ _ => 2, npCosSim := fun _ _ => 0,
    md5Hex := fun s => s, parseIso := fun _ => 0 }

/-- Environment in which distinct embeddings are at cosine distance 3/10
(similarity 7/10): close enough to conflict, not close enough to be a
semantic duplicate.  Texts are embedded by length. -/
def envNear : Env :=
  { encode := fun t => [(t.length : ℚ)], dist := fun a b => if a = b then 0 else 3/10,
    npCosSim := fun _ _ => 0, md5Hex := fun s => s, parseIso := fun _ => 0 }

/-- One stored preference of user u1. -/
def c4s1 : ServerState :=
  (store_memory envNear ⟨[], [], []⟩ "u1" "Loves late nights" "preference"
    none none 1 "T1").2

/-- A second, conflicting preference: the store detects the conflict and
writes the symmetric edge pair. -/
def stC4 : ServerState :=
  (store_memory envNear c4s1 "u1" "Prefers early mornings" "preference"
    none none 2 "T2").2

lemma c4_reach : Reachable envNear stC4 :=
  Reachable.step
    (Reachable.step (Reachable.init [])
      (Step.store ⟨[], [], []⟩ "u1" "Loves late nights" "preference" none none 1 "T1"
        (by with_unfolding_all decide)))
    (Step.store c4s1 "u1" "Prefers early mornings" "preference" none none 2 "T2"
      (by with_unfolding_all decide))

/-! A chain of 25 stores by non-admin user u1: the quota boundary. -/

def c5s0 : ServerState := ⟨[], [], []⟩

def c5s1 : ServerState :=
  (store_memory envC5 c5s0 "u1" "a0" "goal" none none 1 "T").2

def c5s2 : ServerState :=
  (store_memory envC5 c5s1 "u1" "a1" "goal" none none 2 "T").2

def c5s3 : ServerState :=
  (store_memory envC5 c5s2 "u1" "a2" "goal" none none 3 "T").2

def c5s4 : ServerState :=
  (store_memory envC5 c5s3 "u1" "a3" "goal" none none 4 "T").2

def c5s5 : ServerState :=
  (store_memory envC5 c5s4 "u1" "a4" "goal" none none 5 "T").2

def c5s6 : ServerState :=
  (store_memory envC5 c5s5 "u1" "a5" "goal" none none 6 "T").2

def c5s7 : ServerState :=
  (store_memory envC5 c5s6 "u1" "a6" "goal" none none 7 "T").2

def c5s8 : ServerState :=
  (store_memory envC5 c5s7 "u1" "a7" "goal" none none 8 "T").2

def c5s9 : ServerState :=
  (store_memory envC5 c5s8 "u1" "a8" "goal" none none 9 "T").2

def c5s10 : ServerState :=
  (store_memory envC5 c5s9 "u1" "a9" "goal" none none 10 "T").2

def c5s11 : ServerState :=
  (store_memory envC5 c5s10 "u1" "a10" "goal" none none 11 "T").2

def c5s12 : ServerState :=
  (store_memory envC5 c5s11 "u1" "a11" "goal" none none 12 "T").2

def c5s13 : ServerState :=
  (store_memory envC5 c5s12 "u1" "a12" "goal" none none 13 "T").2

def c5s14 : ServerState :=
  (store_memory envC5 c5s13 "u1" "a13" "goal" none none 14 "T").2

def c5s15 : ServerState :=
  (store_memory envC5 c5s14 "u1" "a14" "goal" none none 15 "T").2

def c5s16 : ServerState :=
  (store_memory envC5 c5s15 "u1" "a15" "goal" none none 16 "T").2

def c5s17 : ServerState :=
  (store_memory envC5 c5s16 "u1" "a16" "goal" none none 17 "T").2

def c5s18 : ServerState :=
  (store_memory envC5 c5s17 "u1" "a17" "goal" none none 18 "T").2

def c5s19 : ServerState :=
  (store_memory envC5 c5s18 "u1" "a18" "goal" none none 19 "T").2

def c5s20 : ServerState :=
  (store_memory envC5 c5s19 "u1" "a19" "goal" none none 20 "T").2

def c5s21 : ServerState :=
  (store_memory envC5 c5s20 "u1" "a20" "goal" none none 21 "T").2

def c5s22 : ServerState :=
  (store_memory envC5 c5s21 "u1" "a21" "goal" none none 22 "T").2

def c5s23 : ServerState :=
  (store_memory envC5 c5s22 "u1" "a22" "goal" none none 23 "T").2

def c5s24 : ServerState :=
  (store_memory envC5 c5s23 "u1" "a23" "goal" none none 24 "T").2

def c5s25 : ServerState :=
  (store_memory envC5 c5s24 "u1" "a24" "goal" none none 25 "T").2

lemma c5_reach : Reachable envC5 c5s25 := by
  have h0 : Reachable envC5 c5s0 := Reachable.init []
  have h1 : Reachable envC5 c5s1 :=
    Reachable.step h0
      (Step.store c5s0 "u1" "a0" "goal" none none 1 "T" (by with_unfolding_all decide))
  have h2 : Reachable envC5 c5s2 :=
    Reachable.step h1
      (Step.store c5s1 "u1" "a1" "goal" none none 2 "T" (by with_unfolding_all decide))
  have h3 : Reachable envC5 c5s3 :=
    Reachable.step h2
      (Step.store c5s2 "u1" "a2" "goal" none none 3 "T" (by with_unfolding_all decide))
  have h4 : Reachable envC5 c5s4 :=
    Reachable.step h3
      (Step.store c5s3 "u1" "a3" "goal" none none 4 "T" (by with_unfolding_all decide))
  have h5 : Reachable envC5 c5s5 :=
    Reachable.step h4
      (Step.store c5s4 "u1" "a4" "goal" none none 5 "T" (by with_unfolding_all decide))
  have h6 : Reachable envC5 c5s6 :=
    Reachable.step h5
      (Step.store c5s5 "u1" "a5" "goal" none none 6 "T" (by with_unfolding_all decide))
  have h7 : Reachable envC5 c5s7 :=
    Reachable.step h6
      (Step.store c5s6 "u1" "a6" "goal" none none 7 "T" (by with_unfolding_all decide))
  have h8 : Reachable envC5 c5s8 :=
    Reachable.step h7
      (Step.store c5s7 "u1" "a7" "goal" none none 8 "T" (by with_unfolding_all decide))
  have h9 : Reachable envC5 c5s9 :=
    Reachable.step h8
      (Step.store c5s8 "u1" "a8" "goal" none none 9 "T" (by with_unfolding_all decide))
  have h10 : Reachable envC5 c5s10 :=
    Reachable.step h9
      (Step.store c5s9 "u1" "a9" "goal" none none 10 "T" (by with_unfolding_all decide))
  have h11 : Reachable envC5 c5s11 :=
    Reachable.step h10
      (Step.store c5s10 "u1" "a10" "goal" none none 11 "T" (by with_unfolding_all decide))
  have h12 : Reachable envC5 c5s12 :=
    Reachable.step h11
      (Step.store c5s11 "u1" "a11" "goal" none none 12 "T" (by with_unfolding_all decide))
  have h13 : Reachable envC5 c5s13 :=
    Reachable.step h12
      (Step.store c5s12 "u1" "a12" "goal" none none 13 "T" (by with_unfolding_all decide))
  have h14 : Reachable envC5 c5s14 :=
    Reachable.step h13
      (Step.store c5s13 "u1" "a13" "goal" none none 14 "T" (by with_unfolding_all decide))
  have h15 : Reachable envC5 c5s15 :=
    Reachable.step h14
      (Step.store c5s14 "u1" "a14" "goal" none none 15 "T" (by with_unfolding_all decide))
  have h16 : Reachable envC5 c5s16 :=
    Reachable.step h15
      (Step.store c5s15 "u1" "a15" "goal" none none 16 "T" (by with_unfolding_all decide))
  have h17 : Reachable envC5 c5s17 :=
    Reachable.step h16
      (Step.store c5s16 "u1" "a16" "goal" none none 17 "T" (by with_unfolding_all decide))
  have h18 : Reachable envC5 c5s18 :=
    Reachable.step h17
      (Step.store c5s17 "u1" "a17" "goal" none none 18 "T" (by with_unfolding_all decide))
  have h19 : Reachable envC5 c5s19 :=
    Reachable.step h18
      (Step.store c5s18 "u1" "a18" "goal" none none 19 "T" (by with_unfolding_all decide))
  have h20 : Reachable envC5 c5s20 :=
    Reachable.step h19
      (Step.store c5s19 "u1" "a19" "goal" none none 20 "T" (by with_unfolding_all decide))
  have h21 : Reachable envC5 c5s21 :=
    Reachable.step h20
      (Step.store c5s20 "u1" "a20" "goal" none none 21 "T" (by with_unfolding_all decide))
  have h22 : Reachable envC5 c5s22 :=
    Reachable.step h21
      (Step.store c5s21 "u1" "a21" "goal" none none 22 "T" (by with_unfolding_all decide))
  have h23 : Reachable envC5 c5s23 :=
    Reachable.step h22
      (Step.store c5s22 "u1" "a22" "goal" none none 23 "T" (by with_unfolding_all decide))
  have h24 : Reachable envC5 c5s24 :=
    Reachable.step h23
      (Step.store c5s23 "u1" "a23" "goal" none none 24 "T" (by with_unfolding_all decide))
  have h25 : Reachable envC5 c5s25 :=
    Reachable.step h24
      (Step.store c5s24 "u1" "a24" "goal" none none 25 "T" (by with_unfolding_all decide))
  exact h25


/-! The claim theorems. -/

/-- C9.  The spec describes `GET /memories/prune` as a pure classification
pass over the caller's records.  In the code the endpoint's first statement
computes `now` via `datetime.now(datetime.timezone.utc)` where `datetime` is
the class imported by `from datetime import datetime`, which has no
`timezone` attribute, so every invocation raises `AttributeError` (a 500)
before any record is examined: the classification described by the spec is
unreachable. -/
theorem C9_prune_always_raises (env : Env) (st : ServerState)
    (user_id now_iso : String) :
    prune_memories env st user_id now_iso =
      Except.error (PyError.attributeError
        "type object datetime.datetime has no attribute timezone") := rfl

/-- C6.  Second of two conflicting remembers: the engine detects the
conflict and persists the symmetric edge pair (second conjunct), but the
response dict of `store_memory` (modelled by `StoreOutcome.stored`, which
carries exactly the keys built at memory_server.py lines 479-485) has no
conflicts field, and the `remember` tool's success message — which reads the
absent `conflicts_detected`/`conflicts` keys — lists no conflict (third
conjunct), contradicting the documented `{status: stored, id, conflicts[]}`
output shape. -/
theorem C6_stored_response_omits_conflicts :
    (store_memory envNear c4s1 "u1" "Prefers early mornings" "preference"
        none none 2 "T2").1 =
      StoreOutcome.stored "mem_2" "Prefers early mornings" "preference" "T2" ∧
    ((store_memory envNear c4s1 "u1" "Prefers early mornings" "preference"
        none none 2 "T2").2.memories.map (fun r => (r.id, conflictIdsOf r))) =
      [("mem_1", ["mem_2"]), ("mem_2", ["mem_1"])] ∧
    rememberOutput "Prefers early mornings" "preference"
        (store_memory envNear c4s1 "u1" "Prefers early mornings" "preference"
          none none 2 "T2").1 =
      "I'll remember that!\n\nInformation: Prefers early mornings\nCategory: preference\nMemory ID: mem_2\n" := by
  refine ⟨by with_unfolding_all decide, by with_unfolding_all decide,
    by with_unfolding_all decide⟩

/-- C1 (amended).  The exact-hash cache is process-wide, keyed on
`md5(text_normalised:tag)` with no user id: once any user's remember of
`(text, tag)` was stored, an identical remember by any other user is
answered `skipped` (an exact duplicate) and writes nothing — the opposite of
the claimed per-user scoping. -/
theorem C1_exact_dedup_is_global (env : Env) (st : ServerState)
    (userU userV text tag : String) (ts0 la0 ts0' la0' : Option String)
    (ms1 ms2 : Nat) (iso1 iso2 i t g ts : String)
    (h1 : (store_memory env st userU text tag ts0 la0 ms1 iso1).1 =
      StoreOutcome.stored i t g ts) :
    store_memory env (store_memory env st userU text tag ts0 la0 ms1 iso1).2
        userV text tag ts0' la0' ms2 iso2 =
      (StoreOutcome.skipped text tag,
       (store_memory env st userU text tag ts0 la0 ms1 iso1).2) := by
  obtain ⟨htag, hhash⟩ :=
    store_stored_hash env st userU text tag ts0 la0 ms1 iso1 i t g ts h1
  exact store_skipped env _ userV text tag ts0' la0' ms2 iso2 htag hhash

/-- Witness for C1: user userU stores ("I use Go", tool) into an empty
engine; the identical remember by userV is skipped and the state does not
change. -/
theorem C1_exact_dedup_is_global_witness :
    (store_memory envC5 ⟨[], [], []⟩ "userU" "I use Go" "tool"
        none none 1 "T1").1 =
      StoreOutcome.stored "mem_1" "I use Go" "tool" "T1" ∧
    store_memory envC5
        (store_memory envC5 ⟨[], [], []⟩ "userU" "I use Go" "tool"
          none none 1 "T1").2
        "userV" "I use Go" "tool" none none 2 "T2" =
      (StoreOutcome.skipped "I use Go" "tool",
       (store_memory envC5 ⟨[], [], []⟩ "userU" "I use Go" "tool"
         none none 1 "T1").2) :=
  ⟨by with_unfolding_all decide,
   C1_exact_dedup_is_global envC5 ⟨[], [], []⟩ "userU" "userV" "I use Go" "tool"
     none none none none 1 2 "T1" "T2" "mem_1" "I use Go" "tool" "T1"
     (by with_unfolding_all decide)⟩

/-- Counterexample to C1 as stated: after alice stores ("I use Vim", tool),
bob's remember of the identical pair is NOT stored as a new record owned by
bob — it returns `skipped` and bob owns no record afterwards. -/
theorem C1_per_user_scope_counterexample :
    (store_memory envC5 ⟨[], [], []⟩ "alice" "I use Vim" "tool"
        none none 1 "T1").1 =
      StoreOutcome.stored "mem_1" "I use Vim" "tool" "T1" ∧
    (store_memory envC5
        (store_memory envC5 ⟨[], [], []⟩ "alice" "I use Vim" "tool"
          none none 1 "T1").2
        "bob" "I use Vim" "tool" none none 2 "T2").1 =
      StoreOutcome.skipped "I use Vim" "tool" ∧
    ((store_memory envC5
        (store_memory envC5 ⟨[], [], []⟩ "alice" "I use Vim" "tool"
          none none 1 "T1").2
        "bob" "I use Vim" "tool" none none 2 "T2").2.memories.filter
      (fun r => r.user_id = "bob")) = [] := by
  refine ⟨by with_unfolding_all decide, by with_unfolding_all decide,
    by with_unfolding_all decide⟩

/-- C3.  For a parsed `tools/call` body whose `params.arguments` is an
object, the proxy forwards a body in which `params.arguments.user_token` is
the authenticated principal's token (overwriting whatever the client sent),
and the `content-length` header equals the byte length of the re-serialised
body. -/
theorem C3_token_injection (token user_id reqMethod rawBody : String)
    (reqHeaders : List (String × String)) (kvs pkvs akvs : List (String × Json))
    (hm : lookupAssoc kvs "method" = some (.str "tools/call"))
    (hp : lookupAssoc kvs "params" = some (.obj pkvs))
    (ha : lookupAssoc pkvs "arguments" = some (.obj akvs))
    (hpost : reqMethod = "POST") (hbody : rawBody ≠ "") :
    ∃ fwd, messages_passthrough token user_id reqMethod reqHeaders rawBody
        (some (.obj kvs)) = some fwd ∧
      fwd.body = Json.dumps (.obj (setAssoc kvs "params"
        (.obj (setAssoc pkvs "arguments"
          (.obj (setAssoc akvs "user_token" (.str token))))))) ∧
      lookupAssoc (setAssoc akvs "user_token" (.str token)) "user_token" =
        some (.str token) ∧
      lookupAssoc fwd.headers "content-length" =
        some (toString fwd.body.utf8ByteSize) := by
  subst hpost
  have hinj := injectUserToken_eq token kvs pkvs akvs hm hp ha
  simp only [messages_passthrough]
  rw [if_pos ⟨trivial, hbody⟩]
  simp only [hinj]
  refine ⟨_, rfl, rfl, lookupAssoc_setAssoc_self _ _ _,
    lookupAssoc_setAssoc_self _ _ _⟩


/-- Concrete `tools/call` frame for the token-injection witness; the client
has planted its own `user_token`. -/
def c3akvs : List (String × Json) :=
  [("information", .str "likes tea"), ("user_token", .str "attacker-token")]

def c3pkvs : List (String × Json) :=
  [("name", .str "remember"), ("arguments", .obj c3akvs)]

def c3kvs : List (String × Json) :=
  [("jsonrpc", .str "2.0"), ("method", .str "tools/call"), ("params", .obj c3pkvs)]

def c3headers : List (String × String) :=
  [("host", "mindmirror.local"), ("content-length", "96"),
   ("content-type", "application/json")]

/-- Witness for C3: the hypotheses hold of the concrete frame, and the
forwarded body carries the principal's token over the attacker's. -/
theorem C3_token_injection_witness :
    lookupAssoc c3kvs "method" = some (Json.str "tools/call") ∧
    lookupAssoc c3kvs "params" = some (Json.obj c3pkvs) ∧
    lookupAssoc c3pkvs "arguments" = some (Json.obj c3akvs) ∧
    lookupAssoc c3akvs "user_token" = some (Json.str "attacker-token") ∧
    ("POST" : String) = "POST" ∧ ("x" : String) ≠ "" ∧
    (∃ fwd, messages_passthrough "tok-alice" "alice" "POST" c3headers "x"
        (some (.obj c3kvs)) = some fwd ∧
      fwd.body = Json.dumps (.obj (setAssoc c3kvs "params"
        (.obj (setAssoc c3pkvs "arguments"
          (.obj (setAssoc c3akvs "user_token" (.str "tok-alice"))))))) ∧
      lookupAssoc (setAssoc c3akvs "user_token" (.str "tok-alice")) "user_token" =
        some (.str "tok-alice") ∧
      lookupAssoc fwd.headers "content-length" =
        some (toString fwd.body.utf8ByteSize)) :=
  ⟨rfl, rfl, rfl, rfl, rfl, by decide,
   C3_token_injection "tok-alice" "alice" "POST" "x" c3headers c3kvs c3pkvs c3akvs
     rfl rfl rfl rfl (by decide)⟩

/-- C4.  In every reachable engine state the conflict relation is symmetric
and the `has_conflicts` flag of every record is coherent with its
`conflict_ids` list; both stores (with their back-edge updates) and deletes
(with their neighbour repair) preserve this. -/
theorem C4_conflict_graph_invariants (env : Env) (st : ServerState)
    (h : Reachable env st) :
    (∀ a ∈ st.memories, ∀ b ∈ st.memories,
      (a.id ∈ conflictIdsOf b ↔ b.id ∈ conflictIdsOf a)) ∧
    (∀ a ∈ st.memories, (hasConflictsOf a = true ↔ conflictIdsOf a ≠ [])) := by
  have hInv := (reachable_engineInv h).1
  exact ⟨fun a ha b hb =>
    ⟨fun h1 => hInv.symm b hb a ha h1, fun h2 => hInv.symm a ha b hb h2⟩,
   hInv.coherent⟩

/-- Witness for C4: a reachable two-record state with a genuine conflict
edge pair satisfies symmetry and coherence. -/
theorem C4_conflict_graph_invariants_witness :
    Reachable envNear stC4 ∧
    (stC4.memories.map (fun r => (r.id, conflictIdsOf r, hasConflictsOf r))) =
      [("mem_1", ["mem_2"], true), ("mem_2", ["mem_1"], true)] ∧
    ((∀ a ∈ stC4.memories, ∀ b ∈ stC4.memories,
        (a.id ∈ conflictIdsOf b ↔ b.id ∈ conflictIdsOf a)) ∧
     (∀ a ∈ stC4.memories, (hasConflictsOf a = true ↔ conflictIdsOf a ≠ []))) :=
  ⟨c4_reach, by with_unfolding_all decide,
   C4_conflict_graph_invariants envNear stC4 c4_reach⟩

/-- C2.  Every memory a recall returns — in the primary result list and
inside every emitted conflict group — belongs to the calling user: rows come
from the user-scoped semantic query (the keyword fallback is also
user-scoped), and conflict-group members fetched by id follow conflict
edges, which in reachable states never cross users. -/
theorem C2_recall_isolation (env : Env) (st : ServerState) (h : Reachable env st)
    (user_id query : String) (limit : Nat) (tag_filter : Option String)
    (now_iso : String) (resp : SearchResponse)
    (hresp : (search_memories env st user_id query limit tag_filter now_iso).1 =
      SearchOutcome.ok resp) :
    (∀ m ∈ resp.results,
      ∃ r, r ∈ st.memories ∧ r.id = m.id ∧ r.user_id = user_id) ∧
    (∀ grp ∈ resp.conflict_groups.getD [], ∀ m ∈ grp,
      ∃ r, r ∈ st.memories ∧ r.id = m.id ∧ r.user_id = user_id) := by
  obtain ⟨hres, hgrp⟩ := search_memories_ok_props env st user_id query limit
    tag_filter now_iso resp hresp
  have hInv := (reachable_engineInv h).1
  constructor
  · intro m hm
    obtain ⟨r, hr, hu, _, hid, _⟩ := hres m hm
    exact ⟨r, hr, hid.symm, hu⟩
  · intro grp hg m hm
    rcases hgrp grp hg m hm with ⟨r, hr, hu, _, hid, _⟩ |
      ⟨_, r, hr, hu, _, hcid, c0, hc0, hc0id⟩
    · exact ⟨r, hr, hid.symm, hu⟩
    · have hU := hInv.sameUser r hr c0 hc0 (hc0id.symm ▸ hcid)
      exact ⟨c0, hc0, hc0id, hU.trans hu⟩

/-- The response of a concrete recall over the conflicted two-record state
(the `.ok` payload of `search_memories`). -/
def c2resp : SearchResponse :=
  match (search_memories envNear stC4 "u1" "nights" 5 none "T3").1 with
  | SearchOutcome.ok resp => resp
  | SearchOutcome.invalidTagFilter _ => { query := "", results := [], count := 0 }

/-- Witness for C2: a concrete recall with non-empty results over the
conflicted state returns only records of the caller. -/
theorem C2_recall_isolation_witness :
    Reachable envNear stC4 ∧
    (search_memories envNear stC4 "u1" "nights" 5 none "T3").1 =
      SearchOutcome.ok c2resp ∧
    c2resp.results ≠ [] ∧
    ((∀ m ∈ c2resp.results,
        ∃ r, r ∈ stC4.memories ∧ r.id = m.id ∧ r.user_id = "u1") ∧
     (∀ grp ∈ c2resp.conflict_groups.getD [], ∀ m ∈ grp,
        ∃ r, r ∈ stC4.memories ∧ r.id = m.id ∧ r.user_id = "u1")) :=
  ⟨c4_reach, by with_unfolding_all decide, by with_unfolding_all decide,
   C2_recall_isolation envNear stC4 c4_reach "u1" "nights" 5 none "T3" c2resp
     (by with_unfolding_all decide)⟩


/-- C7 (amended).  Under the cosine-distance contract `0 ≤ dist ≤ 2`, every
similarity a recall returns lies in [-1, 1]: semantic rows carry
`1 - distance` with no lower clamp (`COALESCE(..., 0.0)` only replaces a SQL
NULL), and conflict-group members fetched by id carry no similarity at all.
The claimed lower bound 0 does not hold. -/
theorem C7_similarity_range (env : Env) (st : ServerState)
    (user_id query : String) (limit : Nat) (tag_filter : Option String)
    (now_iso : String) (resp : SearchResponse)
    (hdist : ∀ a b, 0 ≤ env.dist a b ∧ env.dist a b ≤ 2)
    (hresp : (search_memories env st user_id query limit tag_filter now_iso).1 =
      SearchOutcome.ok resp) :
    (∀ m ∈ resp.results, ∀ s, m.similarity = some s → -1 ≤ s ∧ s ≤ 1) ∧
    (∀ grp ∈ resp.conflict_groups.getD [], ∀ m ∈ grp, ∀ s,
      m.similarity = some s → -1 ≤ s ∧ s ≤ 1) := by
  obtain ⟨hres, hgrp⟩ := search_memories_ok_props env st user_id query limit
    tag_filter now_iso resp hresp
  constructor
  · intro m hm s hs
    obtain ⟨r, _, _, _, _, hsim⟩ := hres m hm
    rw [hs] at hsim
    have he := Option.some.inj hsim
    obtain ⟨hd0, hd2⟩ := hdist (env.encode query) r.embedding
    rw [he]
    constructor <;> linarith
  · intro grp hg m hm s hs
    rcases hgrp grp hg m hm with ⟨r, _, _, _, _, hsim⟩ | ⟨hnone, _⟩
    · rw [hs] at hsim
      have he := Option.some.inj hsim
      obtain ⟨hd0, hd2⟩ := hdist (env.encode query) r.embedding
      rw [he]
      constructor <;> linarith
    · rw [hnone] at hs
      cases hs

/-- The response of a recall in an environment where the stored record sits
at the maximal cosine distance 2 from the query. -/
def c7resp : SearchResponse :=
  match (search_memories envC5 c5s1 "u1" "query" 5 none "T9").1 with
  | SearchOutcome.ok resp => resp
  | SearchOutcome.invalidTagFilter _ => { query := "", results := [], count := 0 }

/-- Witness for C7: the contract holds of the concrete environment, the
recall succeeds, and every returned similarity (here -1) is in [-1, 1]. -/
theorem C7_similarity_range_witness :
    (∀ a b, 0 ≤ envC5.dist a b ∧ envC5.dist a b ≤ 2) ∧
    (search_memories envC5 c5s1 "u1" "query" 5 none "T9").1 =
      SearchOutcome.ok c7resp ∧
    c7resp.results.map (fun m => m.similarity) = [some (-1)] ∧
    ((∀ m ∈ c7resp.results, ∀ s, m.similarity = some s → -1 ≤ s ∧ s ≤ 1) ∧
     (∀ grp ∈ c7resp.conflict_groups.getD [], ∀ m ∈ grp, ∀ s,
        m.similarity = some s → -1 ≤ s ∧ s ≤ 1)) :=
  ⟨fun a b => by constructor <;> norm_num [envC5],
   by with_unfolding_all decide, by with_unfolding_all decide,
   C7_similarity_range envC5 c5s1 "u1" "query" 5 none "T9" c7resp
     (fun a b => by constructor <;> norm_num [envC5])
     (by with_unfolding_all decide)⟩

/-- Counterexample to C7 as stated: with a legitimate cosine distance of 2
(opposite unit vectors) the single returned similarity is -1, outside the
claimed interval [0, 1] — there is no `max(0, ·)` clamp in the code. -/
theorem C7_unit_interval_counterexample :
    (∀ a b, 0 ≤ envC5.dist a b ∧ envC5.dist a b ≤ 2) ∧
    (match (search_memories envC5 c5s1 "u1" "recall" 5 none "T8").1 with
      | SearchOutcome.ok resp => resp.results.map (fun m => m.similarity)
      | SearchOutcome.invalidTagFilter _ => []) = [some (-1)] ∧
    ¬ ((0 : ℚ) ≤ -1) :=
  ⟨fun a b => by constructor <;> norm_num [envC5],
   by with_unfolding_all decide, by norm_num⟩

/-- C8.  A forget whose id does not exist or is owned by another user takes
the 404 branch and leaves the state unchanged (no existence oracle); a
forget of an owned record removes the record and erases its id from every
surviving neighbour's `conflict_ids`, and the repaired table is coherent:
`has_conflicts` is true exactly on the records whose (possibly emptied)
`conflict_ids` is non-empty. -/
theorem C8_forget_semantics (env : Env) (st : ServerState) (h : Reachable env st)
    (user_id memory_id : String) :
    ((∀ r ∈ st.memories, ¬(r.id = memory_id ∧ r.user_id = user_id)) →
      delete_memory env st user_id memory_id = (.notFound, st)) ∧
    (∀ r0 ∈ st.memories, r0.id = memory_id → r0.user_id = user_id →
      (∀ x ∈ (delete_memory env st user_id memory_id).2.memories,
        memory_id ∉ conflictIdsOf x ∧ x.id ≠ memory_id) ∧
      (∀ x ∈ (delete_memory env st user_id memory_id).2.memories,
        (hasConflictsOf x = true ↔ conflictIdsOf x ≠ []))) := by
  have hInv := (reachable_engineInv h).1
  refine ⟨delete_not_found env st user_id memory_id, ?_⟩
  intro r0 hr0 hid huser
  exact ⟨delete_removes env hInv user_id memory_id hr0 hid huser,
    fun x hx => (inv_delete env hInv user_id memory_id).coherent x hx⟩

/-- Witness for C8: over the conflicted pair, a forget of a non-existent id
is a 404 leaving the state unchanged, and forgetting mem_2 erases it from
mem_1's `conflict_ids` and clears the flag coherently. -/
theorem C8_forget_semantics_witness :
    Reachable envNear stC4 ∧
    (∀ r ∈ stC4.memories, ¬(r.id = "mem_9" ∧ r.user_id = "u1")) ∧
    delete_memory envNear stC4 "u1" "mem_9" = (.notFound, stC4) ∧
    ((delete_memory envNear stC4 "u1" "mem_2").2.memories.map
      (fun r => (r.id, conflictIdsOf r, hasConflictsOf r))) =
      [("mem_1", [], false)] ∧
    (∀ x ∈ (delete_memory envNear stC4 "u1" "mem_2").2.memories,
      "mem_2" ∉ conflictIdsOf x ∧ x.id ≠ "mem_2") ∧
    (∀ x ∈ (delete_memory envNear stC4 "u1" "mem_2").2.memories,
      (hasConflictsOf x = true ↔ conflictIdsOf x ≠ [])) := by
  have h1 := C8_forget_semantics envNear stC4 c4_reach "u1" "mem_9"
  have h2 := C8_forget_semantics envNear stC4 c4_reach "u1" "mem_2"
  have hmem : ∃ r0 ∈ stC4.memories, r0.id = "mem_2" ∧ r0.user_id = "u1" := by
    with_unfolding_all decide
  obtain ⟨r0, hr0, hrid, hruser⟩ := hmem
  exact ⟨c4_reach, by with_unfolding_all decide,
    h1.1 (by with_unfolding_all decide), by with_unfolding_all decide,
    (h2.2 r0 hr0 hrid hruser).1, (h2.2 r0 hr0 hrid hruser).2⟩


/-- C5.  In every reachable state a non-admin user owns at most 25 records,
and a remember by a non-admin at (or over) the limit — of a fresh, validly
tagged text — returns `limit_reached` reporting the count and the limit 25,
inserting nothing: the count does not advance (only the hash cache grows). -/
theorem C5_quota_enforced (env : Env) (st : ServerState) (h : Reachable env st)
    (u : String) (hu : u ∉ st.admin_users) :
    count_memories st u ≤ 25 ∧
    (∀ text tag : String, ∀ ts0 la0 : Option String,
      ∀ now_ms : Nat, ∀ now_iso : String,
      tag ∈ VALID_TAGS → memoryHash env text tag ∉ st.memory_hashes →
      count_memories st u ≥ 25 →
      store_memory env st u text tag ts0 la0 now_ms now_iso =
        (StoreOutcome.limitReached (count_memories st u) 25,
         { st with memory_hashes := memoryHash env text tag :: st.memory_hashes }) ∧
      count_memories (store_memory env st u text tag ts0 la0 now_ms now_iso).2 u =
        count_memories st u) := by
  refine ⟨(reachable_engineInv h).2 u hu, ?_⟩
  intro text tag ts0 la0 now_ms now_iso htag hhash hcnt
  have heq := store_quota_reject env st u text tag ts0 la0 now_ms now_iso
    htag hhash hu hcnt
  exact ⟨heq, by rw [heq]; rfl⟩

set_option maxRecDepth 100000 in
/-- Witness for C5: after 25 stores user u1 sits exactly at the quota, and
the 26th remember is rejected with `limit_reached 25 25` without advancing
the count. -/
theorem C5_quota_enforced_witness :
    Reachable envC5 c5s25 ∧ "u1" ∉ c5s25.admin_users ∧
    "goal" ∈ VALID_TAGS ∧
    memoryHash envC5 "a25" "goal" ∉ c5s25.memory_hashes ∧
    count_memories c5s25 "u1" = 25 ∧
    count_memories c5s25 "u1" ≤ 25 ∧
    store_memory envC5 c5s25 "u1" "a25" "goal" none none 26 "T" =
      (StoreOutcome.limitReached (count_memories c5s25 "u1") 25,
       { c5s25 with
          memory_hashes := memoryHash envC5 "a25" "goal" :: c5s25.memory_hashes }) ∧
    count_memories (store_memory envC5 c5s25 "u1" "a25" "goal" none none 26 "T").2
        "u1" = count_memories c5s25 "u1" := by
  have h := C5_quota_enforced envC5 c5s25 c5_reach "u1" (by with_unfolding_all decide)
  have h2 := h.2 "a25" "goal" none none 26 "T" (by decide)
    (by with_unfolding_all decide) (by with_unfolding_all decide)
  exact ⟨c5_reach, by with_unfolding_all decide, by decide,
    by with_unfolding_all decide,
    by with_unfolding_all decide, h.1, h2.1, h2.2⟩

/-- C10.  A quota-rejected remember is not atomic against the process-wide
hash cache: the exact hash enters the cache before the quota check and is
not removed on rejection.  From the rejected state on, in every state
reachable by further stores, deletes and searches — including ones where
deletes brought the user back under the limit — an identical remember (by
any user) is answered `skipped` as an exact duplicate, although no record
carrying that hash exists anywhere in the table. -/
theorem C10_phantom_hash (env : Env) (st : ServerState) (u text tag : String)
    (ts0 la0 : Option String) (now_ms : Nat) (now_iso : String)
    (htag : tag ∈ VALID_TAGS)
    (hhash : memoryHash env text tag ∉ st.memory_hashes)
    (hrecs : ∀ r ∈ st.memories,
      r.metadata.hash ≠ some (memoryHash env text tag) ∧ r.metadata.hash ≠ none)
    (hadmin : u ∉ st.admin_users)
    (hcount : count_memories st u ≥ 25) :
    (store_memory env st u text tag ts0 la0 now_ms now_iso).1 =
      StoreOutcome.limitReached (count_memories st u) 25 ∧
    (∀ st2, ReachFrom env (store_memory env st u text tag ts0 la0 now_ms now_iso).2
        st2 →
      (∀ uid2 : String, ∀ ts0' la0' : Option String, ∀ ms' : Nat, ∀ iso' : String,
        store_memory env st2 uid2 text tag ts0' la0' ms' iso' =
          (StoreOutcome.skipped text tag, st2)) ∧
      ∀ r ∈ st2.memories, r.metadata.hash ≠ some (memoryHash env text tag)) := by
  have heq := store_quota_reject env st u text tag ts0 la0 now_ms now_iso
    htag hhash hadmin hcount
  have hP1 : PhantomHash (store_memory env st u text tag ts0 la0 now_ms now_iso).2
      (memoryHash env text tag) := by
    rw [heq]
    refine ⟨List.mem_cons_self _ _, ?_⟩
    intro r hr
    obtain ⟨hne, hnn⟩ := hrecs r hr
    cases hh : r.metadata.hash with
    | none => exact absurd hh hnn
    | some hv => exact ⟨hv, rfl, fun he => hne (by rw [hh, he])⟩
  refine ⟨by rw [heq], ?_⟩
  intro st2 hreach
  have hP2 := phantom_reach hP1 hreach
  refine ⟨fun uid2 ts0' la0' ms' iso' =>
    store_skipped env st2 uid2 text tag ts0' la0' ms' iso' htag hP2.1, ?_⟩
  intro r hr h0
  obtain ⟨hv, hh, hne⟩ := hP2.2 r hr
  rw [hh] at h0
  exact hne (Option.some.inj h0)

/-- The quota-rejected state: u1 at the limit tries to store "a25". -/
def stQ : ServerState :=
  (store_memory envC5 c5s25 "u1" "a25" "goal" none none 26 "T").2

/-- A record is then deleted, bringing u1 back under the quota. -/
def stDel : ServerState := (delete_memory envC5 stQ "u1" "mem_1").2

set_option maxRecDepth 100000 in
/-- Witness for C10: the rejected remember leaves its hash behind; after a
delete brings u1 to 24 records, the identical remember is still answered
`skipped`, although no record in the table carries the hash. -/
theorem C10_phantom_hash_witness :
    "goal" ∈ VALID_TAGS ∧
    memoryHash envC5 "a25" "goal" ∉ c5s25.memory_hashes ∧
    (∀ r ∈ c5s25.memories,
      r.metadata.hash ≠ some (memoryHash envC5 "a25" "goal") ∧
      r.metadata.hash ≠ none) ∧
    "u1" ∉ c5s25.admin_users ∧ count_memories c5s25 "u1" ≥ 25 ∧
    (store_memory envC5 c5s25 "u1" "a25" "goal" none none 26 "T").1 =
      StoreOutcome.limitReached (count_memories c5s25 "u1") 25 ∧
    count_memories stDel "u1" = 24 ∧
    store_memory envC5 stDel "u1" "a25" "goal" none none 27 "T2" =
      (StoreOutcome.skipped "a25" "goal", stDel) ∧
    (∀ r ∈ stDel.memories,
      r.metadata.hash ≠ some (memoryHash envC5 "a25" "goal")) := by
  have h := C10_phantom_hash envC5 c5s25 "u1" "a25" "goal" none none 26 "T"
    (by decide) (by with_unfolding_all decide) (by with_unfolding_all decide)
    (by with_unfolding_all decide) (by with_unfolding_all decide)
  have hreach : ReachFrom envC5 stQ stDel :=
    ReachFrom.step (ReachFrom.refl stQ) (Step.del stQ "u1" "mem_1")
  have h2 := h.2 stDel hreach
  exact ⟨by decide, by with_unfolding_all decide, by with_unfolding_all decide,
    by with_unfolding_all decide, by with_unfolding_all decide, h.1,
    by with_unfolding_all decide,
    h2.1 "u1" none none 27 "T2", h2.2⟩

end Mindmirror
